import Mathlib

/-!
Verification development for the graph store (`graph.ts`), the search-state
pool (`pool.ts`) and the A* engine (`astar.ts`) of the repository.

The embedding models JavaScript object references explicitly: `Link` objects
live in an arena (`linkArena`), and a reference to a link object is its index
(`Nat`) in that arena.  `Node` objects are stored in the node map; since the
store keeps exactly one node object per id and never replaces it, a node
reference is identified with its map entry.  JS `Map`s are association lists
(insertion-ordered, first-match lookup, in-place overwrite), JS `Set`s are
duplicate-free insertion-ordered lists.
-/

/-- A JS node identifier: `NodeId extends string | number`.  Only integral
numbers occur as ids in this code base. -/
inductive NId where
  | num : Int → NId
  | str : String → NId
deriving DecidableEq, Repr

/-- JS template-literal/string coercion of an id (`${id}`). -/
def NId.toStr : NId → String
  | .num n => toString n
  | .str s => s

/-- JS truthiness of an id: the number 0 and the empty string are falsy. -/
def NId.truthy : NId → Bool
  | .num n => n != 0
  | .str s => s ≠ ""

/-- `Link.makeId`: the string `` `${fromId}👉${toId}` ``. -/
def makeId (fromId toId : NId) : String :=
  fromId.toStr ++ "👉" ++ toId.toStr

/-- First-match lookup in an association list (JS `Map.get`). -/
def alGet {κ α : Type} [DecidableEq κ] (l : List (κ × α)) (k : κ) : Option α :=
  (l.find? fun p => decide (p.1 = k)).map (fun p => p.2)

/-- JS `Map.set`: overwrite the first entry with the key in place, else append. -/
def alSet {κ α : Type} [DecidableEq κ] : List (κ × α) → κ → α → List (κ × α)
  | [], k, v => [(k, v)]
  | p :: rest, k, v => if p.1 = k then (k, v) :: rest else p :: alSet rest k v

/-- JS `Map.delete`: remove the first entry with the key. -/
def alDel {κ α : Type} [DecidableEq κ] (l : List (κ × α)) (k : κ) : List (κ × α) :=
  l.eraseP fun p => decide (p.1 = k)

/-- JS `Set.add` on a duplicate-free list. -/
def lsAdd (l : List Nat) (r : Nat) : List Nat :=
  if r ∈ l then l else l ++ [r]

/-- The `Link` class: endpoints, optional payload, derived string id. -/
structure LinkObj (LD : Type) where
  fromId : NId
  toId : NId
  data : Option LD
  id : String
deriving DecidableEq, Repr

/-- The `Node` class: id, incident-link set (`Set | undefined`), payload. -/
structure NodeObj (ND : Type) where
  id : NId
  links : Option (List Nat)
  data : Option ND
deriving DecidableEq, Repr

/-- `Node.addLink`. -/
def NodeObj.addLink {ND : Type} (n : NodeObj ND) (r : Nat) : NodeObj ND :=
  match n.links with
  | some ls => { n with links := some (lsAdd ls r) }
  | none => { n with links := some [r] }

inductive ChangeType where
  | add | update | remove
deriving DecidableEq, Repr

/-- A change record; the node/link object reference is represented by the
node's id / the link's arena index. -/
inductive Change where
  | nodeCh (id : NId) (changeType : ChangeType)
  | linkCh (ref : Nat) (changeType : ChangeType)
deriving DecidableEq, Repr

/-- The `Graph` class state.  `emitted` is the observation trace: the list of
`changed`-event payloads delivered to listeners so far. -/
structure Graph (ND LD : Type) where
  multigraph : Bool
  nodes : List (NId × NodeObj ND)
  links : List (String × Nat)
  linkArena : List (LinkObj LD)
  multiEdges : List (String × Nat)
  suspendEvents : Nat
  listening : Bool
  changes : List Change
  emitted : List (List Change)
deriving DecidableEq, Repr

variable {ND LD : Type}

def Graph.empty (multigraph : Bool := false) : Graph ND LD :=
  { multigraph := multigraph, nodes := [], links := [], linkArena := [],
    multiEdges := [], suspendEvents := 0, listening := false, changes := [],
    emitted := [] }

/-- `on('changed', listener)` sets `#listening = true` (registration is what
activates change tracking). -/
def Graph.listen (g : Graph ND LD) : Graph ND LD :=
  { g with listening := true }

def Graph.getNode (g : Graph ND LD) (nodeId : NId) : Option (NodeObj ND) :=
  alGet g.nodes nodeId

def Graph.nodeCount (g : Graph ND LD) : Nat := g.nodes.length

def Graph.linkCount (g : Graph ND LD) : Nat := g.links.length

def Graph.enterModification (g : Graph ND LD) : Graph ND LD :=
  { g with suspendEvents := g.suspendEvents + 1 }

def Graph.exitModification (g : Graph ND LD) : Graph ND LD :=
  let g := { g with suspendEvents := g.suspendEvents - 1 }
  if g.suspendEvents = 0 ∧ g.changes ≠ [] then
    { g with emitted := g.emitted ++ [g.changes], changes := [] }
  else g

def Graph.recordNodeChange (g : Graph ND LD) (node : NodeObj ND)
    (changeType : ChangeType) : Graph ND LD :=
  if g.listening then { g with changes := g.changes ++ [.nodeCh node.id changeType] }
  else g

def Graph.recordLinkChange (g : Graph ND LD) (ref : Nat)
    (changeType : ChangeType) : Graph ND LD :=
  if g.listening then { g with changes := g.changes ++ [.linkCh ref changeType] }
  else g

/-- The part of `addNode` between the enter/exit bracket. -/
def Graph.addNodeBody (g : Graph ND LD) (nodeId : NId) (data : Option ND) :
    NodeObj ND × Graph ND LD :=
  match g.getNode nodeId with
  | some node =>
    let node := { node with data := data }
    let g := { g with nodes := alSet g.nodes nodeId node }
    (node, g.recordNodeChange node .update)
  | none =>
    let node : NodeObj ND := { id := nodeId, links := none, data := data }
    let g := g.recordNodeChange node .add
    (node, { g with nodes := alSet g.nodes nodeId node })

def Graph.addNode (g : Graph ND LD) (nodeId : NId) (data : Option ND) :
    NodeObj ND × Graph ND LD :=
  let rg := (g.enterModification).addNodeBody nodeId data
  (rg.1, rg.2.exitModification)

/-- `this.getNode(link.fromId)?.links?.delete(link)` — erase a link reference
from a node's incident set, if the node and its set exist. -/
def Graph.nodeLinksDelete (g : Graph ND LD) (k : NId) (r : Nat) : Graph ND LD :=
  match alGet g.nodes k with
  | none => g
  | some n =>
    match n.links with
    | none => g
    | some ls => { g with nodes := alSet g.nodes k { n with links := some (ls.erase r) } }

/-- The bracketed part of a successful `removeLinkInstance`. -/
def Graph.removeLinkInstanceBody (g : Graph ND LD) (ref : Nat) (l : LinkObj LD) :
    Graph ND LD :=
  let g := { g with links := alDel g.links l.id }
  let g := g.nodeLinksDelete l.fromId ref
  let g := g.nodeLinksDelete l.toId ref
  g.recordLinkChange ref .remove

/-- `removeLinkInstance(link)`.  The argument is an (optional) reference to a
link object; `none` models passing `undefined` (`!link` guard).  A reference
that does not resolve in the arena cannot arise from objects this graph
created, and is mapped to the same `false` result. -/
def Graph.removeLinkInstance (g : Graph ND LD) (link : Option Nat) :
    Bool × Graph ND LD :=
  match link with
  | none => (false, g)
  | some ref =>
    match g.linkArena.get? ref with
    | none => (false, g)
    | some l =>
      if (alGet g.links l.id).isNone then (false, g)
      else (true, ((g.enterModification).removeLinkInstanceBody ref l).exitModification)

/-- The bracketed part of `removeNode` for a present node.
`prevLinks.forEach((l) => this.removeLinkInstance(l))`: each call deletes
only the element being visited from this set, so folding over the snapshot
is equivalent to JS `Set.forEach` under concurrent deletion. -/
def Graph.removeNodeBody (g : Graph ND LD) (nodeId : NId) (node : NodeObj ND) :
    Graph ND LD :=
  let prevLinks := node.links
  let g := match prevLinks with
    | some ls =>
      let g := ls.foldl (fun (g : Graph ND LD) r => (g.removeLinkInstance (some r)).2) g
      match alGet g.nodes nodeId with
      | some n => { g with nodes := alSet g.nodes nodeId { n with links := none } }
      | none => g
    | none => g
  let g := { g with nodes := alDel g.nodes nodeId }
  g.recordNodeChange node .remove

def Graph.removeNode (g : Graph ND LD) (nodeId : NId) : Bool × Graph ND LD :=
  match g.getNode nodeId with
  | none => (false, g)
  | some node =>
    (true, ((g.enterModification).removeNodeBody nodeId node).exitModification)

/-- `getLink(fromNodeId, toNodeId)`, returning a link-object reference.  The
guard `if (!fromNodeId || !toNodeId) return undefined` tests JS truthiness. -/
def Graph.getLink (g : Graph ND LD) (fromNodeId toNodeId : NId) : Option Nat :=
  if fromNodeId.truthy ∧ toNodeId.truthy then alGet g.links (makeId fromNodeId toNodeId)
  else none

/-- `#createSingleLink`: reuse (and overwrite the payload of) the existing
link object for the pair, else allocate a new one. -/
def Graph.createSingleLink (g : Graph ND LD) (fromId toId : NId) (data : Option LD) :
    Nat × Graph ND LD :=
  let linkId := makeId fromId toId
  match alGet g.links linkId with
  | some prevRef =>
    match g.linkArena.get? prevRef with
    | some prev =>
      (prevRef, { g with linkArena := g.linkArena.set prevRef { prev with data := data } })
    | none => (prevRef, g)  -- map entries always hold valid arena indices
  | none =>
    (g.linkArena.length,
      { g with linkArena := g.linkArena ++ [{ fromId := fromId, toId := toId, data := data, id := linkId }] })

/-- The disambiguated link id `#createUniqueLink` would use, together with the
updated multi-edge counters.  JS `fromId + suffix` coerces the id to a string
and concatenates. -/
def Graph.uniqueLinkId (g : Graph ND LD) (fromId toId : NId) :
    String × List (String × Nat) :=
  let linkId := makeId fromId toId
  let isMultiEdge := (alGet g.multiEdges linkId).isSome
  if isMultiEdge ∨ (g.getLink fromId toId).isSome then
    let me := if isMultiEdge then g.multiEdges else alSet g.multiEdges linkId 0
    let c := (alGet me linkId).getD 0 + 1
    let me := alSet me linkId c
    let suffix := "@" ++ toString c
    (makeId (.str (fromId.toStr ++ suffix)) (.str (toId.toStr ++ suffix)), me)
  else (linkId, g.multiEdges)

/-- `#createUniqueLink`: always allocates a fresh link object. -/
def Graph.createUniqueLink (g : Graph ND LD) (fromId toId : NId) (data : Option LD) :
    Nat × Graph ND LD :=
  let (linkId, me) := g.uniqueLinkId fromId toId
  (g.linkArena.length,
    { g with multiEdges := me,
             linkArena := g.linkArena ++ [{ fromId := fromId, toId := toId, data := data, id := linkId }] })

def Graph.createLink (g : Graph ND LD) (fromId toId : NId) (data : Option LD) :
    Nat × Graph ND LD :=
  if g.multigraph then g.createUniqueLink fromId toId data
  else g.createSingleLink fromId toId data

/-- Overwrite a node object in the map, addressed through the node reference
captured by `addLink` (the map's entry for its id). -/
def Graph.nodeAddLink (g : Graph ND LD) (k : NId) (r : Nat) : Graph ND LD :=
  match alGet g.nodes k with
  | none => g
  | some n => { g with nodes := alSet g.nodes k (n.addLink r) }

/-- The tail of `addLink` after the link object has been created: store it
under its id, attach it to the endpoints (once for a self-loop), record the
change, leave the modification bracket. -/
def Graph.addLinkFinishBody (g : Graph ND LD) (fromId toId : NId) (ref : Nat) :
    Graph ND LD :=
  match g.linkArena.get? ref with
  | none => g  -- createLink always returns a valid index
  | some link =>
    let isUpdate := (alGet g.links link.id).isSome
    let g := { g with links := alSet g.links link.id ref }
    let g := g.nodeAddLink fromId ref
    let g := if fromId ≠ toId then g.nodeAddLink toId ref else g
    g.recordLinkChange ref (if isUpdate then .update else .add)

def Graph.addLinkFinish (g : Graph ND LD) (fromId toId : NId) (ref : Nat) :
    Nat × Graph ND LD :=
  (ref, (g.addLinkFinishBody fromId toId ref).exitModification)

/-- The work `addLink` performs inside its modification bracket: ensure both
endpoints exist, create (or reuse) the link object, then store/attach/record. -/
def Graph.addLinkBody (g : Graph ND LD) (fromId toId : NId) (data : Option LD) :
    Graph ND LD :=
  let g := if (g.getNode fromId).isSome then g else (g.addNode fromId none).2
  let g := if (g.getNode toId).isSome then g else (g.addNode toId none).2
  let rg := g.createLink fromId toId data
  rg.2.addLinkFinishBody fromId toId rg.1

def Graph.addLink (g : Graph ND LD) (fromId toId : NId) (data : Option LD) :
    Nat × Graph ND LD :=
  let g := g.enterModification
  -- const fromNode = this.getNode(fromId) ?? this.addNode(fromId);
  let g := if (g.getNode fromId).isSome then g else (g.addNode fromId none).2
  let g := if (g.getNode toId).isSome then g else (g.addNode toId none).2
  let rg := g.createLink fromId toId data
  rg.2.addLinkFinish fromId toId rg.1

/-- `removeLink(fromNodeId, toNodeId)` (by-endpoint overload): resolution must
succeed or the call throws `Unknown link`. -/
def Graph.removeLinkByIds (g : Graph ND LD) (fromNodeId toNodeId : NId) :
    Except String Bool × Graph ND LD :=
  match g.getLink fromNodeId toNodeId with
  | none => (.error "Unknown link", g)
  | some ref =>
    let (b, g) := g.removeLinkInstance (some ref)
    (.ok b, g)

/-- `removeLink(link)` (by-link-object overload): a `Link` instance is truthy,
so the `Unknown link` throw is not reached and `removeLinkInstance` decides. -/
def Graph.removeLinkByRef (g : Graph ND LD) (ref : Nat) : Bool × Graph ND LD :=
  g.removeLinkInstance (some ref)

/-- The bracketed part of `clear`.
`for (const node of this.nodes())`: removeNode only deletes the node being
visited, so folding over the snapshot of values is equivalent. -/
def Graph.clearBody (g : Graph ND LD) : Graph ND LD :=
  let ids := g.nodes.map fun p => p.2.id
  ids.foldl (fun g i => (g.removeNode i).2) g

def Graph.clear (g : Graph ND LD) : Graph ND LD :=
  ((g.enterModification).clearBody).exitModification

/-- Score values the A* engine computes with.  With the engine's default
options every score is a natural number or `Infinity`, modelled as `inf`. -/
inductive NumV where
  | fin : Nat → NumV
  | inf
deriving DecidableEq, Repr

def NumV.add : NumV → NumV → NumV
  | .fin a, .fin b => .fin (a + b)
  | _, _ => .inf

def NumV.le : NumV → NumV → Bool
  | _, .inf => true
  | .inf, .fin _ => false
  | .fin a, .fin b => a ≤ b

/-- The `NodeSearchState` class. -/
structure NodeSearchState (ND : Type) where
  node : NodeObj ND
  parent : Option Nat
  closed : Bool
  openFlag : Nat
  distanceToSource : NumV
  fScore : NumV
  heapIndex : Int
deriving DecidableEq, Repr

/-- The fully reinitialized state `newState` hands out: the reuse branch
overwrites every field with exactly the values the constructor sets. -/
def initState {ND : Type} (node : NodeObj ND) : NodeSearchState ND :=
  { node := node, parent := none, closed := false, openFlag := 0,
    distanceToSource := .inf, fScore := .inf, heapIndex := -1 }

/-- The `StatePool` class.  References to search states are indices into
`nodeCache`. -/
structure StatePool (ND : Type) where
  currentInCache : Nat
  nodeCache : List (NodeSearchState ND)
deriving DecidableEq, Repr

def StatePool.empty {ND : Type} : StatePool ND :=
  { currentInCache := 0, nodeCache := [] }

def StatePool.reset {ND : Type} (p : StatePool ND) : StatePool ND :=
  { p with currentInCache := 0 }

def StatePool.newState {ND : Type} (p : StatePool ND) (node : NodeObj ND) :
    Nat × StatePool ND :=
  match p.nodeCache.get? p.currentInCache with
  | some _ =>
    (p.currentInCache,
      { currentInCache := p.currentInCache + 1,
        nodeCache := p.nodeCache.set p.currentInCache (initState node) })
  | none =>
    (p.currentInCache,
      { currentInCache := p.currentInCache + 1,
        nodeCache := p.nodeCache ++ [initState node] })

/-- One yield of `linkedNodes`: `[from, link, to]` — the enumerated node
itself, the link (object reference), and the other endpoint. -/
def LinkedNodes (ND : Type) : Type := NodeObj ND × Nat × NodeObj ND

/-- Body of `*#nonOrientedLinks`: every incident link, the other endpoint
resolved as whichever end is not the node; `Invalid link` is thrown when the
other endpoint is not in the node map. -/
def Graph.nonOrientedLinks (g : Graph ND LD) (node : NodeObj ND) :
    List Nat → Except String (List (LinkedNodes ND))
  | [] => .ok []
  | ref :: rest =>
    match g.linkArena.get? ref with
    | none => g.nonOrientedLinks node rest  -- set members are always allocated links
    | some link =>
      let linkedNodeId := if link.fromId = node.id then link.toId else link.fromId
      match g.getNode linkedNodeId with
      | none => .error "Invalid link"
      | some otherNode =>
        (g.nonOrientedLinks node rest).map fun l => (node, ref, otherNode) :: l

/-- Body of `*#orientedLinks`: only links with `fromId == node.id`. -/
def Graph.orientedLinks (g : Graph ND LD) (node : NodeObj ND) :
    List Nat → Except String (List (LinkedNodes ND))
  | [] => .ok []
  | ref :: rest =>
    match g.linkArena.get? ref with
    | none => g.orientedLinks node rest
    | some link =>
      if link.fromId = node.id then
        match g.getNode link.toId with
        | none => .error "Invalid node state"
        | some otherNode =>
          (g.orientedLinks node rest).map fun l => (node, ref, otherNode) :: l
      else g.orientedLinks node rest

def Graph.linkedNodes (g : Graph ND LD) (nodeId : NId) (oriented : Bool) :
    Except String (List (LinkedNodes ND)) :=
  match g.getNode nodeId with
  | none => .ok []
  | some node =>
    match node.links with
    | none => .ok []
    | some ls =>
      if oriented then g.orientedLinks node ls else g.nonOrientedLinks node ls

/-- A* options.  The frontier comparator (`compare`, default ascending
`fScore`) is modelled by the heap popping a least-`fScore` element. -/
structure AstarOpts (ND LD : Type) where
  blocked : NodeObj ND → NodeObj ND → LinkObj LD → Bool
  blockedPath : NodeSearchState ND → NodeSearchState ND → LinkObj LD → Bool
  heuristic : NodeObj ND → NodeObj ND → NumV
  distance : NodeObj ND → NodeObj ND → LinkObj LD → NumV
  oriented : Bool

/-- The constructor defaults: never blocked, heuristic 0, distance 1,
non-oriented. -/
def defaultOpts : AstarOpts ND LD :=
  { blocked := fun _ _ _ => false
    blockedPath := fun _ _ _ => false
    heuristic := fun _ _ => .fin 0
    distance := fun _ _ _ => .fin 1
    oriented := false }

/-- The in-flight state of one `find` call: the pool (holding the search
states), the `nodeState` map and the frontier (list of state references). -/
structure FindSt (ND : Type) where
  pool : StatePool ND
  nodeState : List (NId × Nat)
  openSet : List Nat
deriving DecidableEq, Repr

/-- Result of `find`: an exception, the `NO_PATH` sentinel, or a node array.
`fuelOut` marks exhaustion of the loop-iteration budget of the embedding. -/
inductive FindRes (ND : Type) where
  | err (msg : String)
  | fuelOut
  | noPath
  | path (nodes : List (NodeObj ND))
deriving DecidableEq, Repr

def FindSt.fScoreAt {ND : Type} (st : FindSt ND) (r : Nat) : NumV :=
  match st.pool.nodeCache.get? r with
  | some s => s.fScore
  | none => .inf

/-- Pop of the binary min-heap: remove a least-`fScore` element (the first
such, for determinism). -/
def FindSt.heapPop {ND : Type} (st : FindSt ND) :
    List Nat → Option (Nat × List Nat)
  | [] => none
  | [r] => some (r, [])
  | r :: rest =>
    match st.heapPop rest with
    | none => some (r, rest)
    | some (m, rest') =>
      if (st.fScoreAt r).le (st.fScoreAt m) then some (r, rest) else some (m, r :: rest')

/-- `goalReached`: `searchState.node === targetNode`.  The store keeps exactly
one node object per id and `find` never mutates nodes, so object identity
coincides with id equality. -/
def goalReached {ND : Type} (s : NodeSearchState ND) (targetNode : NodeObj ND) : Bool :=
  s.node.id = targetNode.id

/-- `reconstructPath`: the goal node first, then the `parent` chain.  The
fuel bounds the walk; parent chains in a search are acyclic and shorter than
the pool. -/
def reconstructPath {ND : Type} (pool : StatePool ND) : Nat → Nat → List (NodeObj ND)
  | 0, _ => []
  | fuel + 1, ref =>
    match pool.nodeCache.get? ref with
    | none => []
    | some s =>
      s.node :: (match s.parent with
        | none => []
        | some p => reconstructPath pool fuel p)

def FindSt.setState {ND : Type} (st : FindSt ND) (r : Nat) (s : NodeSearchState ND) :
    FindSt ND :=
  { st with pool := { st.pool with nodeCache := st.pool.nodeCache.set r s } }

/-- The body of the `for ... of linkedNodes(...)` loop in `find`.  NOTE:
`find` destructures the yielded triple as `[otherNode, link]`, i.e. it reads
the first two components `(node, link)` of `[node, link, otherNode]`. -/
def expandNeighbor (o : AstarOpts ND LD) (g : Graph ND LD) (to_ : NodeObj ND)
    (cameFromRef : Nat) (st : FindSt ND) (tpl : LinkedNodes ND) : FindSt ND :=
  let otherNode := tpl.1
  let linkRef := tpl.2.1
  match g.linkArena.get? linkRef with
  | none => st  -- linkedNodes only yields allocated links
  | some link =>
  match st.pool.nodeCache.get? cameFromRef with
  | none => st  -- the popped reference is always live
  | some cameFrom =>
  let (otherRef, st) :=
    match alGet st.nodeState otherNode.id with
    | some r => (r, st)
    | none =>
      let (r, pool) := st.pool.newState otherNode
      (r, { st with pool := pool, nodeState := alSet st.nodeState otherNode.id r })
  match st.pool.nodeCache.get? otherRef with
  | none => st
  | some otherSearchState =>
  if otherSearchState.closed then st
  else if o.blocked otherNode cameFrom.node link then st
  else if o.blockedPath cameFrom otherSearchState link then st
  else
    let tentativeDistance := cameFrom.distanceToSource.add (o.distance otherNode cameFrom.node link)
    if otherSearchState.distanceToSource.le tentativeDistance then st
    else
      let otherSearchState :=
        { otherSearchState with
            parent := some cameFromRef
            distanceToSource := tentativeDistance
            fScore := tentativeDistance.add (o.heuristic otherSearchState.node to_) }
      let st := st.setState otherRef otherSearchState
      { st with openSet := st.openSet ++ [otherRef] }

/-- The `while (openSet.length > 0)` loop of `find`; `fuel` bounds the number
of iterations of the embedding. -/
def findLoop (o : AstarOpts ND LD) (g : Graph ND LD) (to_ : NodeObj ND) :
    Nat → FindSt ND → FindRes ND × FindSt ND
  | 0, st => (.fuelOut, st)
  | fuel + 1, st =>
    if st.openSet.isEmpty then (.noPath, st)
    else
      match st.heapPop st.openSet with
      | none => (.err "Where we came from?", st)
      | some (cameFromRef, rest) =>
        let st := { st with openSet := rest }
        match st.pool.nodeCache.get? cameFromRef with
        | none => (.err "Where we came from?", st)
        | some cameFrom =>
          if goalReached cameFrom to_ then
            (.path (reconstructPath st.pool (st.pool.nodeCache.length + 1) cameFromRef), st)
          else
            let st := st.setState cameFromRef { cameFrom with closed := true }
            match g.linkedNodes cameFrom.node.id o.oriented with
            | .error e => (.err e, st)
            | .ok tuples =>
              findLoop o g to_ fuel (tuples.foldl (expandNeighbor o g to_ cameFromRef) st)

/-- `Astar.find(fromId, toId)`.  The pool is the engine state that persists
across calls; it is taken and returned explicitly. -/
def find (o : AstarOpts ND LD) (g : Graph ND LD) (p : StatePool ND) (fuel : Nat)
    (fromId toId : NId) : FindRes ND × StatePool ND :=
  match g.getNode fromId with
  | none => (.err (fromId.toStr ++ " is not defined in this graph"), p)
  | some from_ =>
  match g.getNode toId with
  | none => (.err (toId.toStr ++ " is not defined in this graph"), p)
  | some to_ =>
    let p := p.reset
    let (startRef, p) := p.newState from_
    let p :=
      match p.nodeCache.get? startRef with
      | some s =>
        let s := { s with fScore := o.heuristic from_ to_, distanceToSource := NumV.fin 0, openFlag := 1 }
        { p with nodeCache := p.nodeCache.set startRef s }
      | none => p
    let st : FindSt ND := { pool := p, nodeState := [(fromId, startRef)], openSet := [startRef] }
    let (res, st) := findLoop o g to_ fuel st
    (res, st.pool)

/-- The public mutating operations of the graph store, as one datatype (used
to state per-call properties uniformly). -/
inductive GOp (ND LD : Type) where
  | opAddNode (id : NId) (d : Option ND)
  | opAddLink (fromId toId : NId) (d : Option LD)
  | opRemoveNode (id : NId)
  | opRemoveLinkIds (fromId toId : NId)
  | opRemoveLinkRef (ref : Nat)
  | opClear

/-- Run a public mutating call, keeping the resulting graph state. -/
def Graph.runOp (g : Graph ND LD) : GOp ND LD → Graph ND LD
  | .opAddNode i d => (g.addNode i d).2
  | .opAddLink f t d => (g.addLink f t d).2
  | .opRemoveNode i => (g.removeNode i).2
  | .opRemoveLinkIds f t => (g.removeLinkByIds f t).2
  | .opRemoveLinkRef r => (g.removeLinkByRef r).2
  | .opClear => g.clear

def Graph.linkIdAt (g : Graph ND LD) (r : Nat) : Option String :=
  (g.linkArena.get? r).map fun l => l.id

/-- The documented store invariants (spec §3): unique map keys, nodes keyed by
their own id, link-map entries keyed by the stored link's id, incident-link
references resolving to links that name the node and whose endpoints exist and
whose id is live in the store, the inverse index (every incident link is
registered at both endpoints), duplicate-free incident sets, and distinct link
ids within one node's incident set. -/
def Graph.wfB (g : Graph ND LD) : Bool :=
  decide ((g.nodes.map Prod.fst).Nodup) &&
  decide ((g.links.map Prod.fst).Nodup) &&
  g.nodes.all (fun p => decide (p.2.id = p.1)) &&
  g.links.all (fun q => decide (g.linkIdAt q.2 = some q.1)) &&
  g.nodes.all (fun p => (p.2.links.getD []).all (fun r =>
    match g.linkArena.get? r with
    | none => false
    | some l =>
      (decide (l.fromId = p.1) || decide (l.toId = p.1)) &&
      (g.getNode l.fromId).isSome && (g.getNode l.toId).isSome &&
      (alGet g.links l.id).isSome)) &&
  g.nodes.all (fun p => (p.2.links.getD []).all (fun r =>
    match g.linkArena.get? r with
    | none => true
    | some l => g.nodes.all (fun q =>
        !(decide (q.1 = l.fromId) || decide (q.1 = l.toId)) ||
          decide (r ∈ q.2.links.getD [])))) &&
  g.nodes.all (fun p => decide ((p.2.links.getD []).Nodup)) &&
  g.nodes.all (fun p => decide (((p.2.links.getD []).map g.linkIdAt).Nodup))

/-! ### Concrete graphs used by counterexamples and witnesses -/

/-- `addLink(1,2); addLink(2,3)` on a fresh default graph. -/
def g123 : Graph Unit Unit :=
  (((Graph.empty.addLink (.num 1) (.num 2) none)).2.addLink (.num 2) (.num 3) none).2

/-- Two isolated nodes `1`, `2` (disconnected components). -/
def gDisc : Graph Unit Unit :=
  ((Graph.empty.addNode (.num 1) none).2.addNode (.num 2) none).2

/-- A multigraph after `addLink(0, 1, 'a'); addLink(0, 1, 'b')` (node id 0 is
falsy). -/
def gM2 : Graph Unit String :=
  (((Graph.empty true).addLink (.num 0) (.num 1) (some "a")).2.addLink
    (.num 0) (.num 1) (some "b")).2

/-- A default graph with one link `1 → 2`. -/
def g12 : Graph Unit Unit :=
  (Graph.empty.addLink (.num 1) (.num 2) none).2

/-- The incident-link set the neighbor enumeration of node `k` reads. -/
def Graph.nodeLinksAt (g : Graph ND LD) (k : NId) : List Nat :=
  ((alGet g.nodes k).bind fun n => n.links).getD []

/-- A multigraph holding one link `1 → 2` with payload `"first"`. -/
def gT1 : Graph Unit String :=
  ((Graph.empty true).addLink (.num 1) (.num 2) (some "first")).2

/-- Two graph states with the same store content (nodes, links, arena,
multi-edge counters, mode, listener flag); only the event bookkeeping
(`suspendEvents`, `changes`, `emitted`) may differ. -/
def FrameRel (g h : Graph ND LD) : Prop :=
  g.multigraph = h.multigraph ∧ g.nodes = h.nodes ∧ g.links = h.links ∧
  g.linkArena = h.linkArena ∧ g.multiEdges = h.multiEdges ∧ g.listening = h.listening

/-- A state transformer behaves like a nested (suspended) mutation: run from
any two store-equal states that are inside a modification bracket, it makes
the same store change, records the same change list `δ`, emits nothing and
leaves the suspension depth alone. -/
def Nested (F : Graph ND LD → Graph ND LD) : Prop :=
  ∀ g h, FrameRel g h → 1 ≤ g.suspendEvents → 1 ≤ h.suspendEvents →
    FrameRel (F g) (F h) ∧
    (F g).suspendEvents = g.suspendEvents ∧ (F h).suspendEvents = h.suspendEvents ∧
    (F g).emitted = g.emitted ∧ (F h).emitted = h.emitted ∧
    ∃ δ, (F g).changes = g.changes ++ δ ∧ (F h).changes = h.changes ++ δ

/-- An empty graph with a registered change listener, and the same state at
suspension depth 1: concrete states for exercising the batching lemmas. -/
def gL : Graph Unit Unit := (Graph.empty : Graph Unit Unit).listen

def gL1 : Graph Unit Unit := { gL with suspendEvents := 1 }

/-- The cascade `removeNode` runs over the removed node's incident set. -/
def removalFold (st : Graph ND LD) (rs : List Nat) : Graph ND LD :=
  rs.foldl (fun (g : Graph ND LD) r => (g.removeLinkInstance (some r)).2) st

/-- The node object stored for id 2 in `g123` (computed by evaluation). -/
def wNodeC4 : NodeObj Unit := { id := .num 2, links := some [0, 1], data := none }

def wNode1 : NodeObj Unit := { id := .num 1, links := some [0], data := none }

def wNode2 : NodeObj Unit := { id := .num 2, links := some [0], data := none }

def wCame : NodeSearchState Unit :=
  { initState wNode1 with distanceToSource := .fin 0, fScore := .fin 0 }

def wSt : FindSt Unit :=
  { pool := { currentInCache := 2, nodeCache := [wCame, initState wNode2] }
    nodeState := [(.num 1, 0), (.num 2, 1)]
    openSet := [] }

def wLink : LinkObj Unit := { fromId := .num 1, toId := .num 2, data := none, id := "1👉2" }

/-- C10 witness: a graph whose node 1 has payload `"x"`. -/
def gPayload : Graph String Unit :=
  ((Graph.empty : Graph String Unit).addNode (.num 1) (some "x")).2.listen

/-- C7 witness: a dirty two-slot pool (closed states, finite distances,
parents set) versus the empty pool — `newState` resets slot 0 and `find` on
`g123` is oblivious to the dirt. -/
def dirtyPool : StatePool Unit :=
  { currentInCache := 2
    nodeCache :=
      [{ node := wNode1, parent := some 1, closed := true, openFlag := 1,
         distanceToSource := .fin 5, fScore := .fin 7, heapIndex := 3 },
       { node := wNode2, parent := some 0, closed := true, openFlag := 1,
         distanceToSource := .fin 6, fScore := .fin 6, heapIndex := 0 }] }

/-! ### Association-list lemmas -/

theorem alGet_nil {κ α : Type} [DecidableEq κ] (k : κ) :
    alGet ([] : List (κ × α)) k = none := rfl

theorem alGet_cons {κ α : Type} [DecidableEq κ] (p : κ × α) (rest : List (κ × α)) (k : κ) :
    alGet (p :: rest) k = if p.1 = k then some p.2 else alGet rest k := by
  by_cases h : p.1 = k <;> simp [alGet, List.find?, h]

theorem alGet_alSet_self {κ α : Type} [DecidableEq κ] (l : List (κ × α)) (k : κ) (v : α) :
    alGet (alSet l k v) k = some v := by
  induction l with
  | nil => simp [alSet, alGet_cons]
  | cons p rest ih => by_cases h : p.1 = k <;> simp [alSet, h, alGet_cons, ih]

theorem alGet_alSet_ne {κ α : Type} [DecidableEq κ] (l : List (κ × α)) {k k' : κ} (v : α)
    (h : k' ≠ k) : alGet (alSet l k v) k' = alGet l k' := by
  induction l with
  | nil => simp [alSet, alGet_cons, alGet_nil, Ne.symm h]
  | cons p rest ih =>
    by_cases hp : p.1 = k
    · subst hp
      simp [alSet, alGet_cons, Ne.symm h]
    · simp [alSet, hp, alGet_cons, ih]

theorem alGet_mem {κ α : Type} [DecidableEq κ] {l : List (κ × α)} {k : κ} {v : α}
    (h : alGet l k = some v) : (k, v) ∈ l := by
  induction l with
  | nil => simp [alGet_nil] at h
  | cons p rest ih =>
    rw [alGet_cons] at h
    by_cases hp : p.1 = k
    · simp [hp] at h
      have hp2 : p = (k, v) := by
        obtain ⟨p1, p2⟩ := p
        simp at hp h
        simp [hp, h]
      simp [hp2]
    · simp [hp] at h
      simp [ih h]

/-! ### Claim C1 -/

/-- C1: on the unweighted graph `1–2, 2–3` with default options, the claim
says `find(1,3)` returns a path of 2 edges (`[3,2,1]`); the code instead
returns the `NO_PATH` sentinel — `find` destructures the `linkedNodes` yield
`[node, link, otherNode]` as `[otherNode, link]`, so every "neighbor" it
examines is the just-closed node itself and the frontier never grows.  Even
two directly linked nodes are unreachable from each other. -/
theorem c1_find_returns_noPath_despite_existing_path :
    (find defaultOpts g123 StatePool.empty 10 (.num 1) (.num 3)).1 = .noPath ∧
    (find defaultOpts g123 StatePool.empty 10 (.num 1) (.num 2)).1 = .noPath ∧
    (g123.getLink (.num 1) (.num 2)).isSome = true ∧
    (g123.getLink (.num 2) (.num 3)).isSome = true := by
  refine ⟨?_, ?_, ?_, ?_⟩ <;> decide

/-! ### Claim C9 -/

/-- C9: `getLink` returns `undefined` whenever either argument is falsy (the
number 0 or the empty string), even if a matching link is stored; hence a
link whose endpoint id is falsy can never be retrieved or removed through the
by-endpoint interface (`removeLink(fromId, toId)` throws `Unknown link`). -/
theorem c9_getLink_falsy_ids (g : Graph ND LD) (f t : NId)
    (h : f.truthy = false ∨ t.truthy = false) :
    g.getLink f t = none ∧
    (g.removeLinkByIds f t).1 = .error "Unknown link" ∧
    (g.removeLinkByIds f t).2 = g := by
  have hg : g.getLink f t = none := by
    rcases h with h | h <;> simp [Graph.getLink, h]
  refine ⟨hg, ?_, ?_⟩ <;> simp [Graph.removeLinkByIds, hg]

/-- C9 witness: in the multigraph `gM2` a link `0 → 1` exists in the store
(`linkCount = 1`), yet `getLink(0, 1)` is `undefined` and
`removeLink(0, 1)` throws. -/
theorem c9_witness :
    gM2.getLink (.num 0) (.num 1) = none ∧
    (gM2.removeLinkByIds (.num 0) (.num 1)).1 = .error "Unknown link" ∧
    (gM2.removeLinkByIds (.num 0) (.num 1)).2 = gM2 :=
  c9_getLink_falsy_ids gM2 (.num 0) (.num 1) (Or.inl (by decide))

/-! ### Claim C10 -/

/-- C10: re-inserting an existing node with the data argument omitted
(`addNode(n)`) unconditionally overwrites its payload with `undefined`,
records an `update` change (one batch when quiescent and listening), and
leaves the node's map entry — in particular its incident-link set — otherwise
unchanged. -/
theorem c10_addNode_overwrites_payload_with_undefined (g : Graph ND LD) (n : NId)
    (node : NodeObj ND) (h : g.getNode n = some node) :
    (g.addNode n none).1 = { node with data := none } ∧
    (g.addNode n none).2.getNode n = some { node with data := none } ∧
    (g.listening = true → g.suspendEvents = 0 → g.changes = [] →
      (g.addNode n none).2.emitted = g.emitted ++ [[Change.nodeCh node.id .update]]) := by
  rw [Graph.getNode] at h
  refine ⟨?_, ?_, ?_⟩
  · simp [Graph.addNode, Graph.addNodeBody, Graph.enterModification, Graph.getNode, h]
  · simp [Graph.addNode, Graph.addNodeBody, Graph.enterModification, Graph.getNode, h,
      Graph.recordNodeChange, Graph.exitModification]
    by_cases hl : g.listening <;>
      simp [hl, alGet_alSet_self] <;>
      split <;>
      simp [Graph.getNode, alGet_alSet_self]
  · intro hl hs hc
    simp [Graph.addNode, Graph.addNodeBody, Graph.enterModification, Graph.getNode, h,
      Graph.recordNodeChange, Graph.exitModification, hl, hs, hc]

theorem c10_witness :
    (gPayload.addNode (.num 1) none).1 =
      { id := .num 1, links := none, data := (none : Option String) } ∧
    (gPayload.addNode (.num 1) none).2.getNode (.num 1) =
      some { id := .num 1, links := none, data := (none : Option String) } ∧
    (gPayload.listening = true → gPayload.suspendEvents = 0 → gPayload.changes = [] →
      (gPayload.addNode (.num 1) none).2.emitted =
        gPayload.emitted ++ [[Change.nodeCh (.num 1) .update]]) :=
  c10_addNode_overwrites_payload_with_undefined gPayload (.num 1)
    { id := .num 1, links := none, data := some "x" } (by decide)

/-! ### Claim C8 -/

/-- C8: in the expand loop, given a live, unblocked, not-closed neighbor
state, the predecessor record is updated only when the tentative distance
`current.distanceToSource + distance(otherNode, currentNode, link)` is
strictly smaller than the neighbor's `distanceToSource`; when it is greater
or equal (`>=`), the iteration leaves the search state untouched, so an
equal-cost alternate route never displaces the first-discovered predecessor.
-/
theorem c8_relaxation_strict_improvement_only (o : AstarOpts ND LD) (g : Graph ND LD)
    (to_ : NodeObj ND) (cref oRef : Nat) (st : FindSt ND) (tpl : LinkedNodes ND)
    (link : LinkObj LD) (cameFrom oState : NodeSearchState ND)
    (hlink : g.linkArena.get? tpl.2.1 = some link)
    (hcf : st.pool.nodeCache.get? cref = some cameFrom)
    (hns : alGet st.nodeState tpl.1.id = some oRef)
    (hos : st.pool.nodeCache.get? oRef = some oState)
    (hclosed : oState.closed = false)
    (hb : o.blocked tpl.1 cameFrom.node link = false)
    (hbp : o.blockedPath cameFrom oState link = false) :
    (oState.distanceToSource.le
        (cameFrom.distanceToSource.add (o.distance tpl.1 cameFrom.node link)) = true →
      expandNeighbor o g to_ cref st tpl = st) ∧
    (oState.distanceToSource.le
        (cameFrom.distanceToSource.add (o.distance tpl.1 cameFrom.node link)) = false →
      (expandNeighbor o g to_ cref st tpl).pool.nodeCache.get? oRef =
        some { oState with
                 parent := some cref
                 distanceToSource :=
                   cameFrom.distanceToSource.add (o.distance tpl.1 cameFrom.node link)
                 fScore :=
                   (cameFrom.distanceToSource.add (o.distance tpl.1 cameFrom.node link)).add
                     (o.heuristic oState.node to_) } ∧
      (expandNeighbor o g to_ cref st tpl).openSet = st.openSet ++ [oRef] ∧
      (expandNeighbor o g to_ cref st tpl).nodeState = st.nodeState) := by
  simp only [List.get?_eq_getElem?] at hlink hcf hos
  constructor
  · intro hge
    simp [expandNeighbor, hlink, hcf, hns, hos, hclosed, hb, hbp, hge]
  · intro hlt
    simp [expandNeighbor, hlink, hcf, hns, hos, hclosed, hb, hbp, hlt, FindSt.setState,
      List.getElem?_set_self', hos]

/-- C8 witness: concrete mid-search state on `g12`, current = the start state
of node 1 at distance 0, neighbor = node 2 at distance ∞: the tentative
distance 1 strictly improves, so the update branch fires. -/
theorem c8_witness :
    ((initState wNode2).distanceToSource.le
        (wCame.distanceToSource.add
          ((defaultOpts : AstarOpts Unit Unit).distance wNode2 wCame.node wLink)) = true →
      expandNeighbor defaultOpts g12 wNode2 0 wSt (wNode2, 0, wNode1) = wSt) ∧
    ((initState wNode2).distanceToSource.le
        (wCame.distanceToSource.add
          ((defaultOpts : AstarOpts Unit Unit).distance wNode2 wCame.node wLink)) = false →
      (expandNeighbor defaultOpts g12 wNode2 0 wSt (wNode2, 0, wNode1)).pool.nodeCache.get? 1 =
        some { node := wNode2, parent := some 0, closed := false, openFlag := 0,
               distanceToSource := .fin 1, fScore := .fin 1, heapIndex := -1 } ∧
      (expandNeighbor defaultOpts g12 wNode2 0 wSt (wNode2, 0, wNode1)).openSet =
        wSt.openSet ++ [1] ∧
      (expandNeighbor defaultOpts g12 wNode2 0 wSt (wNode2, 0, wNode1)).nodeState =
        wSt.nodeState) :=
  c8_relaxation_strict_improvement_only defaultOpts g12 wNode2 0 1 wSt (wNode2, 0, wNode1)
    wLink wCame (initState wNode2) (by decide) (by decide) (by decide) (by decide)
    (by decide) (by decide) (by decide)

/-! ### Extraction of the store invariants from `wfB` -/

theorem wf_parts {g : Graph ND LD} (h : g.wfB = true) :
    (g.nodes.map Prod.fst).Nodup ∧
    (g.links.map Prod.fst).Nodup ∧
    (∀ p ∈ g.nodes, p.2.id = p.1) ∧
    (∀ q ∈ g.links, g.linkIdAt q.2 = some q.1) ∧
    (∀ p ∈ g.nodes, ∀ r ∈ p.2.links.getD [],
      ∃ l, g.linkArena.get? r = some l ∧ (l.fromId = p.1 ∨ l.toId = p.1) ∧
        (g.getNode l.fromId).isSome = true ∧ (g.getNode l.toId).isSome = true ∧
        (alGet g.links l.id).isSome = true) ∧
    (∀ p ∈ g.nodes, ∀ r ∈ p.2.links.getD [], ∀ l, g.linkArena.get? r = some l →
      ∀ q ∈ g.nodes, (q.1 = l.fromId ∨ q.1 = l.toId) → r ∈ q.2.links.getD []) ∧
    (∀ p ∈ g.nodes, (p.2.links.getD []).Nodup) ∧
    (∀ p ∈ g.nodes, ((p.2.links.getD []).map g.linkIdAt).Nodup) := by
  simp only [Graph.wfB, Bool.and_eq_true, List.all_eq_true, decide_eq_true_eq] at h
  obtain ⟨⟨⟨⟨⟨⟨⟨h1, h2⟩, h3⟩, h4⟩, h5⟩, h6⟩, h7⟩, h8⟩ := h
  refine ⟨h1, h2, h3, h4, ?_, ?_, h7, h8⟩
  · intro p hp r hr
    have h5' := h5 p hp r hr
    cases harena : g.linkArena.get? r with
    | none => rw [harena] at h5'; simp at h5'
    | some l =>
      rw [harena] at h5'
      simp only [Bool.and_eq_true, Bool.or_eq_true, decide_eq_true_eq] at h5'
      exact ⟨l, rfl, h5'.1.1.1, h5'.1.1.2, h5'.1.2, h5'.2⟩
  · intro p hp r hr l harena q hq hend
    have h6' := h6 p hp r hr
    rw [harena] at h6'
    simp only [List.all_eq_true, Bool.or_eq_true, Bool.not_eq_true',
      decide_eq_true_eq, Bool.or_eq_false_iff, decide_eq_false_iff_not] at h6'
    have h6q := h6' q hq
    rcases h6q with hno | hyes
    · rcases hend with he | he
      · exact absurd he hno.1
      · exact absurd he hno.2
    · exact hyes

theorem alDel_cons_eq {κ α : Type} [DecidableEq κ] (p : κ × α) (rest : List (κ × α))
    {k : κ} (hp : p.1 = k) : alDel (p :: rest) k = rest := by
  simp [alDel, List.eraseP, hp]

theorem alDel_cons_ne {κ α : Type} [DecidableEq κ] (p : κ × α) (rest : List (κ × α))
    {k : κ} (hp : ¬p.1 = k) : alDel (p :: rest) k = p :: alDel rest k := by
  simp [alDel, List.eraseP, hp]

theorem alGet_alDel_ne {κ α : Type} [DecidableEq κ] (l : List (κ × α)) {k k' : κ}
    (h : k' ≠ k) : alGet (alDel l k) k' = alGet l k' := by
  induction l with
  | nil => rfl
  | cons p rest ih =>
    by_cases hp : p.1 = k
    · rw [alDel_cons_eq p rest hp, alGet_cons]
      have hne : ¬p.1 = k' := by rw [hp]; exact Ne.symm h
      simp [hne]
    · rw [alDel_cons_ne p rest hp, alGet_cons, alGet_cons, ih]

theorem alGet_alDel_self {κ α : Type} [DecidableEq κ] (l : List (κ × α)) (k : κ)
    (hnd : (l.map Prod.fst).Nodup) : alGet (alDel l k) k = none := by
  induction l with
  | nil => rfl
  | cons p rest ih =>
    simp only [List.map_cons, List.nodup_cons] at hnd
    by_cases hp : p.1 = k
    · rw [alDel_cons_eq p rest hp]
      subst hp
      cases hfind : alGet rest p.1 with
      | none => rfl
      | some v => exact absurd (List.mem_map_of_mem Prod.fst (alGet_mem hfind)) hnd.1
    · rw [alDel_cons_ne p rest hp, alGet_cons]
      simp only [hp, if_false]
      exact ih hnd.2

theorem nodeLinksAt_nodeLinksDelete_self (g : Graph ND LD) (k : NId) (r : Nat) :
    (g.nodeLinksDelete k r).nodeLinksAt k = (g.nodeLinksAt k).erase r := by
  unfold Graph.nodeLinksDelete Graph.nodeLinksAt
  cases hn : alGet g.nodes k with
  | none => simp [hn]
  | some n =>
    cases hl : n.links with
    | none => simp [hn, hl]
    | some ls => simp [hn, hl, alGet_alSet_self]

theorem nodeLinksAt_nodeLinksDelete_ne (g : Graph ND LD) (k : NId) (r : Nat)
    {k' : NId} (h : k' ≠ k) :
    (g.nodeLinksDelete k r).nodeLinksAt k' = g.nodeLinksAt k' := by
  unfold Graph.nodeLinksDelete Graph.nodeLinksAt
  cases hn : alGet g.nodes k with
  | none => simp [hn]
  | some n =>
    cases hl : n.links with
    | none => simp [hn, hl]
    | some ls => simp [hn, hl, alGet_alSet_ne _ _ h]

theorem wf_nodeLinksAt_nodup {g : Graph ND LD} (h : g.wfB = true) (k : NId) :
    (g.nodeLinksAt k).Nodup := by
  unfold Graph.nodeLinksAt
  cases hn : alGet g.nodes k with
  | none => simp
  | some n =>
    cases hl : n.links with
    | none => simp [hl]
    | some ls =>
      have := (wf_parts h).2.2.2.2.2.2.1 (k, n) (alGet_mem hn)
      simpa [hl] using this

theorem not_mem_erase_self {l : List Nat} (h : l.Nodup) (r : Nat) : r ∉ l.erase r := by
  intro hmem
  exact absurd ((h.mem_erase_iff).mp hmem).1 (by simp)

theorem nodeLinksDelete_links (g : Graph ND LD) (k : NId) (r : Nat) :
    (g.nodeLinksDelete k r).links = g.links := by
  unfold Graph.nodeLinksDelete
  cases hn : alGet g.nodes k with
  | none => rfl
  | some n =>
    obtain ⟨ni, nl, nd⟩ := n
    cases nl <;> rfl

theorem nodeLinksDelete_linkArena (g : Graph ND LD) (k : NId) (r : Nat) :
    (g.nodeLinksDelete k r).linkArena = g.linkArena := by
  unfold Graph.nodeLinksDelete
  cases hn : alGet g.nodes k with
  | none => rfl
  | some n =>
    obtain ⟨ni, nl, nd⟩ := n
    cases nl <;> rfl

theorem recordLinkChange_nodes (g : Graph ND LD) (ref : Nat) (t : ChangeType) :
    (g.recordLinkChange ref t).nodes = g.nodes := by
  unfold Graph.recordLinkChange
  split <;> rfl

theorem recordLinkChange_links (g : Graph ND LD) (ref : Nat) (t : ChangeType) :
    (g.recordLinkChange ref t).links = g.links := by
  unfold Graph.recordLinkChange
  split <;> rfl

theorem exitModification_nodes (g : Graph ND LD) :
    g.exitModification.nodes = g.nodes := by
  unfold Graph.exitModification
  dsimp only
  split <;> rfl

theorem exitModification_links (g : Graph ND LD) :
    g.exitModification.links = g.links := by
  unfold Graph.exitModification
  dsimp only
  split <;> rfl

theorem nodeLinksAt_congr {g g' : Graph ND LD} (h : g'.nodes = g.nodes) (k : NId) :
    g'.nodeLinksAt k = g.nodeLinksAt k := by
  unfold Graph.nodeLinksAt
  rw [h]

theorem nodeLinksAt_nodup_nodeLinksDelete {g : Graph ND LD} (k : NId) (r : Nat)
    (k' : NId) (h : (g.nodeLinksAt k').Nodup) :
    ((g.nodeLinksDelete k r).nodeLinksAt k').Nodup := by
  by_cases hk : k' = k
  · subst hk
    rw [nodeLinksAt_nodeLinksDelete_self]
    exact h.erase r
  · rw [nodeLinksAt_nodeLinksDelete_ne g k r hk]
    exact h

/-- Characterization of a successful `removeLinkInstance` call: the store
entry for the link's id is deleted, the reference is detached from both
endpoint sets, one `remove` link change is recorded, all inside the
enter/exit bracket. -/
theorem removeLinkInstance_success {g : Graph ND LD} {ref : Nat} {l : LinkObj LD}
    (harena : g.linkArena.get? ref = some l)
    (hid : (alGet g.links l.id).isSome = true) :
    g.removeLinkInstance (some ref) =
      (true,
        (((({ g.enterModification with
              links := alDel g.links l.id }).nodeLinksDelete l.fromId
            ref).nodeLinksDelete l.toId ref).recordLinkChange ref
          .remove).exitModification) := by
  unfold Graph.removeLinkInstance
  dsimp only
  rw [harena]
  have h0 : (alGet g.links l.id).isNone = false := by
    cases hx : alGet g.links l.id
    · rw [hx] at hid; simp at hid
    · rfl
  simp only [h0, Bool.false_eq_true, if_false]
  rfl

/-! ### Claim C6 -/

/-- C6 counterexample: the claim says the by-link-object overload fails with
an error when the passed object's reference/id is unknown to the store.
Concretely: remove the only link of `g12` (success, `true`), then pass the
same link object again — its id is now unknown to the store, yet the second
call returns `false` without raising any error (the `Unknown link` throw is
only reachable through the by-endpoint overload), and the graph is
unchanged. -/
theorem c6_counterexample_unknown_object_returns_false :
    (g12.removeLinkByRef 0).1 = true ∧
    ((g12.removeLinkByRef 0).2.removeLinkByRef 0).1 = false ∧
    ((g12.removeLinkByRef 0).2.removeLinkByRef 0).2 = (g12.removeLinkByRef 0).2 := by
  refine ⟨?_, ?_, ?_⟩ <;> decide

/-- C6 (amended): `removeLink` by endpoints throws `Unknown link` whenever
`getLink` cannot resolve the pair; `removeLink` with a link object whose id
is unknown to the store returns `false` without error and changes nothing;
a successful removal returns `true`, deletes the link's id from the store and
detaches the reference from both endpoint nodes' incident sets. -/
theorem c6_removeLink_resolution (g : Graph ND LD)
    (f t : NId) (ref ref2 : Nat) (l l2 : LinkObj LD)
    (hwf : g.wfB = true) :
    (g.getLink f t = none → g.removeLinkByIds f t = (.error "Unknown link", g)) ∧
    (g.linkArena.get? ref = some l → alGet g.links l.id = none →
      g.removeLinkByRef ref = (false, g)) ∧
    (g.linkArena.get? ref2 = some l2 → (alGet g.links l2.id).isSome = true →
      (g.removeLinkByRef ref2).1 = true ∧
      alGet (g.removeLinkByRef ref2).2.links l2.id = none ∧
      ref2 ∉ (g.removeLinkByRef ref2).2.nodeLinksAt l2.fromId ∧
      ref2 ∉ (g.removeLinkByRef ref2).2.nodeLinksAt l2.toId) := by
  refine ⟨?_, ?_, ?_⟩
  · intro h
    simp [Graph.removeLinkByIds, h]
  · intro harena hid
    simp only [List.get?_eq_getElem?] at harena
    simp [Graph.removeLinkByRef, Graph.removeLinkInstance, harena, hid]
  · intro harena hid
    rw [Graph.removeLinkByRef, removeLinkInstance_success harena hid]
    set g2 : Graph ND LD :=
      { g.enterModification with links := alDel g.links l2.id } with hg2
    have hg2links : g2.links = alDel g.links l2.id := rfl
    have hg2at : ∀ k, g2.nodeLinksAt k = g.nodeLinksAt k := fun k =>
      nodeLinksAt_congr rfl k
    set g3 := g2.nodeLinksDelete l2.fromId ref2 with hg3
    set g4 := g3.nodeLinksDelete l2.toId ref2 with hg4
    set g5 := g4.recordLinkChange ref2 .remove with hg5
    have hnodes5 : g5.exitModification.nodes = g4.nodes := by
      rw [exitModification_nodes, hg5, recordLinkChange_nodes]
    have hlinks : g5.exitModification.links = alDel g.links l2.id := by
      rw [exitModification_links, hg5, recordLinkChange_links, hg4,
        nodeLinksDelete_links, hg3, nodeLinksDelete_links, hg2links]
    refine ⟨rfl, ?_, ?_, ?_⟩
    · rw [hlinks]
      exact alGet_alDel_self g.links l2.id (wf_parts hwf).2.1
    · have hat : g5.exitModification.nodeLinksAt l2.fromId = g4.nodeLinksAt l2.fromId :=
        nodeLinksAt_congr hnodes5 _
      rw [hat]
      by_cases hft : l2.toId = l2.fromId
      · rw [hg4, hft, nodeLinksAt_nodeLinksDelete_self]
        intro hmem
        exact absurd (List.mem_of_mem_erase hmem) (by
          rw [hg3, nodeLinksAt_nodeLinksDelete_self, hg2at]
          exact not_mem_erase_self (wf_nodeLinksAt_nodup hwf l2.fromId) ref2)
      · rw [hg4, nodeLinksAt_nodeLinksDelete_ne g3 l2.toId ref2 (fun hh => hft hh.symm),
          hg3, nodeLinksAt_nodeLinksDelete_self, hg2at]
        exact not_mem_erase_self (wf_nodeLinksAt_nodup hwf l2.fromId) ref2
    · have hat : g5.exitModification.nodeLinksAt l2.toId = g4.nodeLinksAt l2.toId :=
        nodeLinksAt_congr hnodes5 _
      rw [hat, hg4, nodeLinksAt_nodeLinksDelete_self]
      refine not_mem_erase_self ?_ ref2
      rw [hg3]
      exact nodeLinksAt_nodup_nodeLinksDelete _ _ _
        (by rw [hg2at]; exact wf_nodeLinksAt_nodup hwf l2.toId)

/-- C6 witness: `c6_removeLink_resolution` at `g12`, the link `1 → 2` and
endpoints `(3, 4)`. -/
theorem c6_witness :
    (g12.getLink (.num 3) (.num 4) = none →
      g12.removeLinkByIds (.num 3) (.num 4) = (.error "Unknown link", g12)) ∧
    (g12.linkArena.get? 0 = some wLink → alGet g12.links wLink.id = none →
      g12.removeLinkByRef 0 = (false, g12)) ∧
    (g12.linkArena.get? 0 = some wLink → (alGet g12.links wLink.id).isSome = true →
      (g12.removeLinkByRef 0).1 = true ∧
      alGet (g12.removeLinkByRef 0).2.links wLink.id = none ∧
      0 ∉ (g12.removeLinkByRef 0).2.nodeLinksAt wLink.fromId ∧
      0 ∉ (g12.removeLinkByRef 0).2.nodeLinksAt wLink.toId) :=
  c6_removeLink_resolution g12 (.num 3) (.num 4) 0 0 wLink wLink (by decide)

theorem alSet_length_isSome {κ α : Type} [DecidableEq κ] {l : List (κ × α)} {k : κ}
    (h : (alGet l k).isSome = true) (v : α) : (alSet l k v).length = l.length := by
  induction l with
  | nil => simp [alGet] at h
  | cons p rest ih =>
    rw [alGet_cons] at h
    by_cases hp : p.1 = k
    · simp [alSet, hp]
    · simp only [hp, if_false] at h
      simp [alSet, hp, ih h]

theorem alSet_length_isNone {κ α : Type} [DecidableEq κ] {l : List (κ × α)} {k : κ}
    (h : alGet l k = none) (v : α) : (alSet l k v).length = l.length + 1 := by
  induction l with
  | nil => simp [alSet]
  | cons p rest ih =>
    rw [alGet_cons] at h
    by_cases hp : p.1 = k
    · simp [hp] at h
    · simp only [hp, if_false] at h
      simp [alSet, hp, ih h]

theorem alGet_none_not_mem {κ α : Type} [DecidableEq κ] {l : List (κ × α)} {k : κ}
    (h : alGet l k = none) : ∀ v, (k, v) ∉ l := by
  induction l with
  | nil => simp
  | cons p rest ih =>
    rw [alGet_cons] at h
    by_cases hp : p.1 = k
    · simp [hp] at h
    · simp only [hp, if_false] at h
      intro v hv
      rcases List.mem_cons.mp hv with he | hm
      · exact hp (by rw [← he])
      · exact ih h v hm

theorem exitModification_linkArena (g : Graph ND LD) :
    g.exitModification.linkArena = g.linkArena := by
  unfold Graph.exitModification; dsimp only; split <;> rfl

theorem exitModification_multiEdges (g : Graph ND LD) :
    g.exitModification.multiEdges = g.multiEdges := by
  unfold Graph.exitModification; dsimp only; split <;> rfl

theorem exitModification_multigraph (g : Graph ND LD) :
    g.exitModification.multigraph = g.multigraph := by
  unfold Graph.exitModification; dsimp only; split <;> rfl

theorem exitModification_listening (g : Graph ND LD) :
    g.exitModification.listening = g.listening := by
  unfold Graph.exitModification; dsimp only; split <;> rfl

theorem exitModification_suspendEvents (g : Graph ND LD) :
    g.exitModification.suspendEvents = g.suspendEvents - 1 := by
  unfold Graph.exitModification; dsimp only; split <;> rfl

theorem addNode_links (g : Graph ND LD) (i : NId) (d : Option ND) :
    (g.addNode i d).2.links = g.links := by
  unfold Graph.addNode Graph.addNodeBody
  dsimp only
  cases hn : (g.enterModification).getNode i <;>
  · dsimp only
    rw [exitModification_links]
    unfold Graph.recordNodeChange
    split <;> rfl

theorem addNode_linkArena (g : Graph ND LD) (i : NId) (d : Option ND) :
    (g.addNode i d).2.linkArena = g.linkArena := by
  unfold Graph.addNode Graph.addNodeBody
  dsimp only
  cases hn : (g.enterModification).getNode i <;>
  · dsimp only
    rw [exitModification_linkArena]
    unfold Graph.recordNodeChange
    split <;> rfl

theorem addNode_multiEdges (g : Graph ND LD) (i : NId) (d : Option ND) :
    (g.addNode i d).2.multiEdges = g.multiEdges := by
  unfold Graph.addNode Graph.addNodeBody
  dsimp only
  cases hn : (g.enterModification).getNode i <;>
  · dsimp only
    rw [exitModification_multiEdges]
    unfold Graph.recordNodeChange
    split <;> rfl

theorem addNode_multigraph (g : Graph ND LD) (i : NId) (d : Option ND) :
    (g.addNode i d).2.multigraph = g.multigraph := by
  unfold Graph.addNode Graph.addNodeBody
  dsimp only
  cases hn : (g.enterModification).getNode i <;>
  · dsimp only
    rw [exitModification_multigraph]
    unfold Graph.recordNodeChange
    split <;> rfl

theorem nodeAddLink_links (g : Graph ND LD) (k : NId) (r : Nat) :
    (g.nodeAddLink k r).links = g.links := by
  unfold Graph.nodeAddLink
  cases alGet g.nodes k <;> rfl

theorem nodeAddLink_linkArena (g : Graph ND LD) (k : NId) (r : Nat) :
    (g.nodeAddLink k r).linkArena = g.linkArena := by
  unfold Graph.nodeAddLink
  cases alGet g.nodes k <;> rfl

theorem recordLinkChange_linkArena (g : Graph ND LD) (ref : Nat) (t : ChangeType) :
    (g.recordLinkChange ref t).linkArena = g.linkArena := by
  unfold Graph.recordLinkChange
  split <;> rfl

theorem ifAddNode_links (g : Graph ND LD) (i : NId) :
    (if (g.getNode i).isSome = true then g else (g.addNode i none).2).links = g.links := by
  split
  · rfl
  · exact addNode_links g i none

theorem ifAddNode_linkArena (g : Graph ND LD) (i : NId) :
    (if (g.getNode i).isSome = true then g else (g.addNode i none).2).linkArena =
      g.linkArena := by
  split
  · rfl
  · exact addNode_linkArena g i none

theorem ifAddNode_multiEdges (g : Graph ND LD) (i : NId) :
    (if (g.getNode i).isSome = true then g else (g.addNode i none).2).multiEdges =
      g.multiEdges := by
  split
  · rfl
  · exact addNode_multiEdges g i none

theorem ifAddNode_multigraph (g : Graph ND LD) (i : NId) :
    (if (g.getNode i).isSome = true then g else (g.addNode i none).2).multigraph =
      g.multigraph := by
  split
  · rfl
  · exact addNode_multigraph g i none

theorem uniqueLinkId_congr {g g' : Graph ND LD} (hl : g'.links = g.links)
    (hm : g'.multiEdges = g.multiEdges) (f t : NId) :
    g'.uniqueLinkId f t = g.uniqueLinkId f t := by
  unfold Graph.uniqueLinkId Graph.getLink
  rw [hl, hm]

theorem get?_set_self_of_some {α : Type} {l : List α} {i : Nat} {b : α}
    (h : l.get? i = some b) (a : α) : (l.set i a).get? i = some a := by
  simp [List.get?_eq_getElem?] at h ⊢
  simp [List.getElem?_set_self', h]

/-! ### Claim C5 -/

/-- C5 counterexample: in a multigraph, `addLink(0, 1)` twice does not
increase `linkCount` — node id 0 is falsy, so `#createUniqueLink`'s
`getLink(0, 1)` probe returns `undefined`, no disambiguating suffix is
applied, and the second link overwrites the first store entry (`linkCount`
stays 1 instead of strictly increasing), both link objects sharing the same
id. -/
theorem c5_counterexample_multigraph_falsy_ids :
    gM2.multigraph = true ∧
    ((Graph.empty true : Graph Unit String).addLink (.num 0) (.num 1)
        (some "a")).2.linkCount = 1 ∧
    gM2.linkCount = 1 ∧
    (gM2.linkArena.get? 0).map (fun l => l.id) = some "0👉1" ∧
    (gM2.linkArena.get? 1).map (fun l => l.id) = some "0👉1" := by
  refine ⟨?_, ?_, ?_, ?_, ?_⟩ <;> decide

theorem ifNodeAddLink_links (g : Graph ND LD) (c : Prop) [Decidable c] (k : NId) (r : Nat) :
    (if c then g.nodeAddLink k r else g).links = g.links := by
  split
  · exact nodeAddLink_links g k r
  · rfl

theorem ifNodeAddLink_linkArena (g : Graph ND LD) (c : Prop) [Decidable c] (k : NId) (r : Nat) :
    (if c then g.nodeAddLink k r else g).linkArena = g.linkArena := by
  split
  · exact nodeAddLink_linkArena g k r
  · rfl

/-- What the tail of `addLink` does to the store-level fields, given the
created link object. -/
theorem addLinkFinish_spec (g : Graph ND LD) (f t : NId) (ref : Nat) (link : LinkObj LD)
    (h : g.linkArena.get? ref = some link) :
    (g.addLinkFinish f t ref).1 = ref ∧
    (g.addLinkFinish f t ref).2.links = alSet g.links link.id ref ∧
    (g.addLinkFinish f t ref).2.linkArena = g.linkArena := by
  unfold Graph.addLinkFinish Graph.addLinkFinishBody
  rw [h]
  dsimp only
  refine ⟨rfl, ?_, ?_⟩
  · rw [exitModification_links, recordLinkChange_links, ifNodeAddLink_links,
      nodeAddLink_links]
  · rw [exitModification_linkArena, recordLinkChange_linkArena, ifNodeAddLink_linkArena,
      nodeAddLink_linkArena]

/-- C5 (amended): in non-multigraph mode a second `addLink` for an ordered
pair whose link already exists leaves `linkCount` unchanged, returns the very
same link object and overwrites its payload with the new data; in multigraph
mode an `addLink` call strictly increases `linkCount` and allocates a fresh
link object whose disambiguated id differs from every id in the store,
provided that disambiguated id (`uniqueLinkId`) is not already a store key —
which the falsy-endpoint counterexample violates. -/
theorem c5_addLink_multiplicity (g : Graph ND LD) (f t : NId) (d : Option LD) :
    (g.multigraph = false → ∀ r l, alGet g.links (makeId f t) = some r →
      g.linkArena.get? r = some l → l.id = makeId f t →
      (g.addLink f t d).2.linkCount = g.linkCount ∧
      (g.addLink f t d).1 = r ∧
      (g.addLink f t d).2.linkArena.get? r = some { l with data := d }) ∧
    (g.multigraph = true →
      alGet g.links (g.uniqueLinkId f t).1 = none →
      (g.addLink f t d).2.linkCount = g.linkCount + 1 ∧
      (g.addLink f t d).2.linkArena.get? (g.addLink f t d).1 =
        some { fromId := f, toId := t, data := d, id := (g.uniqueLinkId f t).1 } ∧
      ∀ q ∈ g.links, q.1 ≠ (g.uniqueLinkId f t).1) := by
  unfold Graph.addLink
  dsimp only
  set g1 := g.enterModification with hg1
  set g2 := if (g1.getNode f).isSome = true then g1 else (g1.addNode f none).2 with hg2
  set g3 := if (g2.getNode t).isSome = true then g2 else (g2.addNode t none).2 with hg3
  have h2links : g2.links = g.links := by rw [hg2]; exact ifAddNode_links g1 f
  have h3links : g3.links = g.links := by rw [hg3, ifAddNode_links, h2links]
  have h2arena : g2.linkArena = g.linkArena := by rw [hg2]; exact ifAddNode_linkArena g1 f
  have h3arena : g3.linkArena = g.linkArena := by rw [hg3, ifAddNode_linkArena, h2arena]
  have h2me : g2.multiEdges = g.multiEdges := by rw [hg2]; exact ifAddNode_multiEdges g1 f
  have h3me : g3.multiEdges = g.multiEdges := by rw [hg3, ifAddNode_multiEdges, h2me]
  have h2mg : g2.multigraph = g.multigraph := by rw [hg2]; exact ifAddNode_multigraph g1 f
  have h3mg : g3.multigraph = g.multigraph := by rw [hg3, ifAddNode_multigraph, h2mg]
  constructor
  · intro hmg r l hmap harena hid
    have hcl : g3.createLink f t d = g3.createSingleLink f t d := by
      unfold Graph.createLink
      rw [h3mg, hmg]
      simp
    have hsingle : g3.createSingleLink f t d =
        (r, { g3 with linkArena := g3.linkArena.set r { l with data := d } }) := by
      unfold Graph.createSingleLink
      dsimp only
      rw [h3links, hmap]
      dsimp only
      rw [h3arena, harena]
    rw [hcl, hsingle]
    dsimp only
    have hget : (({ g3 with linkArena := g3.linkArena.set r { l with data := d } } :
        Graph ND LD)).linkArena.get? r = some { l with data := d } := by
      show (g3.linkArena.set r { l with data := d }).get? r = _
      rw [h3arena]
      exact get?_set_self_of_some harena _
    obtain ⟨href, hlinks, harena2⟩ := addLinkFinish_spec _ f t r _ hget
    refine ⟨?_, href, ?_⟩
    · show (_ : Graph ND LD).links.length = g.links.length
      rw [hlinks]
      show (alSet g3.links ({ l with data := d } : LinkObj LD).id r).length = _
      have : ({ l with data := d } : LinkObj LD).id = l.id := rfl
      rw [this, h3links, hid]
      exact alSet_length_isSome (by rw [hmap]; rfl) r
    · rw [harena2, hget]
  · intro hmg hfresh
    have hcl : g3.createLink f t d = g3.createUniqueLink f t d := by
      unfold Graph.createLink
      rw [h3mg, hmg]
      simp
    cases hu : g.uniqueLinkId f t with
    | mk linkId me =>
    have hcu : g3.createUniqueLink f t d =
        (g3.linkArena.length, { g3 with multiEdges := me, linkArena := g3.linkArena ++ [{ fromId := f, toId := t, data := d, id := linkId }] }) := by
      unfold Graph.createUniqueLink
      rw [uniqueLinkId_congr h3links h3me, hu]
    rw [hcl, hcu]
    dsimp only
    have hget : (({ g3 with multiEdges := me, linkArena := g3.linkArena ++ [{ fromId := f, toId := t, data := d, id := linkId }] } : Graph ND LD)).linkArena.get? g3.linkArena.length =
        some { fromId := f, toId := t, data := d, id := linkId } := by
      show (g3.linkArena ++ [_]).get? g3.linkArena.length = _
      simp [List.get?_eq_getElem?, List.getElem?_concat_length]
    obtain ⟨href, hlinks, harena2⟩ := addLinkFinish_spec _ f t _ _ hget
    rw [hu] at hfresh
    dsimp only at hfresh
    refine ⟨?_, ?_, ?_⟩
    · show (_ : Graph ND LD).links.length = g.links.length + 1
      rw [hlinks]
      show (alSet g3.links linkId _).length = _
      rw [h3links]
      exact alSet_length_isNone hfresh _
    · rw [href, harena2, hget]
    · intro q hq hqid
      have : (linkId, q.2) ∈ g.links := by
        have hqe : q = (linkId, q.2) := by
          obtain ⟨q1, q2⟩ := q
          simp at hqid
          rw [hqid]
        rw [← hqe]
        exact hq
      exact alGet_none_not_mem hfresh q.2 this

/-- C5 witness: the non-multigraph branch at `g12` (re-adding `1 → 2`
replaces the payload in place), the multigraph branch at `gT1` (adding
`1 → 2` again appends a disambiguated link). -/
theorem c5_witness :
    ((g12.addLink (.num 1) (.num 2) none).2.linkCount = g12.linkCount ∧
      (g12.addLink (.num 1) (.num 2) none).1 = 0 ∧
      (g12.addLink (.num 1) (.num 2) none).2.linkArena.get? 0 =
        some { wLink with data := none }) ∧
    ((gT1.addLink (.num 1) (.num 2) (some "second")).2.linkCount = gT1.linkCount + 1 ∧
      (gT1.addLink (.num 1) (.num 2) (some "second")).2.linkArena.get?
          ((gT1.addLink (.num 1) (.num 2) (some "second")).1) =
        some { fromId := .num 1, toId := .num 2, data := some "second",
               id := (gT1.uniqueLinkId (.num 1) (.num 2)).1 } ∧
      ∀ q ∈ gT1.links, q.1 ≠ (gT1.uniqueLinkId (.num 1) (.num 2)).1) :=
  ⟨(c5_addLink_multiplicity g12 (.num 1) (.num 2) none).1 (by decide) 0 wLink
      (by decide) (by decide) (by decide),
    (c5_addLink_multiplicity gT1 (.num 1) (.num 2) (some "second")).2 (by decide)
      (by decide)⟩

/-! ### A* characterization under the store invariants -/

theorem nonOrientedLinks_wf_ok {g : Graph ND LD} {nf : NodeObj ND} :
    ∀ ls, (∀ r ∈ ls,
      ∃ l, g.linkArena.get? r = some l ∧
        (g.getNode l.fromId).isSome = true ∧ (g.getNode l.toId).isSome = true) →
      ∃ ts, g.nonOrientedLinks nf ls = .ok ts ∧ ∀ tp ∈ ts, tp.1 = nf := by
  intro ls
  induction ls with
  | nil => exact fun _ => ⟨[], rfl, by simp⟩
  | cons r rest ih =>
    intro hv
    obtain ⟨l, harena, hfrom, hto⟩ := hv r (by simp)
    obtain ⟨ts, hts, hall⟩ := ih fun r' hr' => hv r' (by simp [hr'])
    have hother : (g.getNode (if l.fromId = nf.id then l.toId else l.fromId)).isSome = true := by
      split <;> assumption
    obtain ⟨other, hother'⟩ := Option.isSome_iff_exists.mp hother
    refine ⟨(nf, r, other) :: ts, ?_, ?_⟩
    · unfold Graph.nonOrientedLinks
      rw [harena]
      dsimp only
      rw [hother', hts]
      rfl
    · intro tp htp
      rcases List.mem_cons.mp htp with he | hm
      · rw [he]
      · exact hall tp hm

theorem orientedLinks_wf_ok {g : Graph ND LD} {nf : NodeObj ND} :
    ∀ ls, (∀ r ∈ ls,
      ∃ l, g.linkArena.get? r = some l ∧
        (g.getNode l.fromId).isSome = true ∧ (g.getNode l.toId).isSome = true) →
      ∃ ts, g.orientedLinks nf ls = .ok ts ∧ ∀ tp ∈ ts, tp.1 = nf := by
  intro ls
  induction ls with
  | nil => exact fun _ => ⟨[], rfl, by simp⟩
  | cons r rest ih =>
    intro hv
    obtain ⟨l, harena, hfrom, hto⟩ := hv r (by simp)
    obtain ⟨ts, hts, hall⟩ := ih fun r' hr' => hv r' (by simp [hr'])
    by_cases hdir : l.fromId = nf.id
    · obtain ⟨other, hother'⟩ := Option.isSome_iff_exists.mp hto
      refine ⟨(nf, r, other) :: ts, ?_, ?_⟩
      · unfold Graph.orientedLinks
        rw [harena]
        dsimp only
        rw [if_pos hdir, hother', hts]
        rfl
      · intro tp htp
        rcases List.mem_cons.mp htp with he | hm
        · rw [he]
        · exact hall tp hm
    · refine ⟨ts, ?_, hall⟩
      unfold Graph.orientedLinks
      rw [harena]
      dsimp only
      rw [if_neg hdir]
      exact hts

/-- Under the store invariants, `linkedNodes` never throws, and every yielded
triple has the enumerated node itself as first component. -/
theorem linkedNodes_wf_ok {g : Graph ND LD} (hwf : g.wfB = true) {f : NId}
    {nf : NodeObj ND} (hf : g.getNode f = some nf) (b : Bool) :
    ∃ ts, g.linkedNodes f b = .ok ts ∧ ∀ tp ∈ ts, tp.1 = nf := by
  have hv : ∀ r ∈ nf.links.getD [],
      ∃ l, g.linkArena.get? r = some l ∧
        (g.getNode l.fromId).isSome = true ∧ (g.getNode l.toId).isSome = true := by
    intro r hr
    obtain ⟨l, h1, _, h3, h4, _⟩ :=
      (wf_parts hwf).2.2.2.2.1 (f, nf) (alGet_mem hf) r hr
    exact ⟨l, h1, h3, h4⟩
  unfold Graph.linkedNodes
  rw [hf]
  dsimp only
  cases hls : nf.links with
  | none => exact ⟨[], rfl, by simp⟩
  | some ls =>
    rw [hls] at hv
    cases b with
    | true => simpa using orientedLinks_wf_ok ls (by simpa using hv)
    | false => simpa using nonOrientedLinks_wf_ok ls (by simpa using hv)

/-- Once the popped node is closed, the expand loop skips every yielded
triple: the tuple component `find` reads as "otherNode" is the enumerated
node itself, whose state was just closed. -/
theorem foldl_expandNeighbor_skip (o : AstarOpts ND LD) (g : Graph ND LD)
    (to_ : NodeObj ND) (cref : Nat) {nf : NodeObj ND} {cs : NodeSearchState ND} :
    ∀ (ts : List (LinkedNodes ND)) (st : FindSt ND), (∀ tp ∈ ts, tp.1 = nf) →
      alGet st.nodeState nf.id = some cref →
      st.pool.nodeCache.get? cref = some cs → cs.closed = true →
      ts.foldl (expandNeighbor o g to_ cref) st = st := by
  intro ts
  induction ts with
  | nil => intro st _ _ _ _; rfl
  | cons tp rest ih =>
    intro st hall hns hcs hclosed
    have hstep : expandNeighbor o g to_ cref st tp = st := by
      have h1 : tp.1 = nf := hall tp (by simp)
      unfold expandNeighbor
      rw [h1]
      dsimp only
      cases g.linkArena.get? tp.2.1 with
      | none => rfl
      | some link =>
        simp only [hcs, hns]
        simp [hclosed]
    rw [List.foldl_cons, hstep]
    exact ih st (fun tp' h' => hall tp' (by simp [h'])) hns hcs hclosed

theorem reset_newState (p : StatePool ND) (nf : NodeObj ND) :
    ∃ q, p.reset.newState nf = (0, q) ∧ q.nodeCache.get? 0 = some (initState nf) := by
  unfold StatePool.reset StatePool.newState
  dsimp only
  cases hc : p.nodeCache with
  | nil => exact ⟨_, rfl, rfl⟩
  | cons a l =>
    refine ⟨_, rfl, ?_⟩
    simp

/-- With both endpoints present and the store invariants, one call to `find`
is fully determined: the start node is popped first; if it is the goal the
one-node path is returned, otherwise the node is closed, every neighbor
iteration skips (the destructured "otherNode" is the closed node itself), the
frontier empties and `NO_PATH` is returned.  The result does not depend on
the pool contents. -/
theorem find_characterize (o : AstarOpts ND LD) {g : Graph ND LD} (hwf : g.wfB = true)
    {f t : NId} {nf nt : NodeObj ND} (hf : g.getNode f = some nf)
    (ht : g.getNode t = some nt) (p : StatePool ND) {fuel : Nat} (hfuel : 2 ≤ fuel) :
    (find o g p fuel f t).1 = if f = t then FindRes.path [nf] else FindRes.noPath := by
  have hnf : nf.id = f := (wf_parts hwf).2.2.1 (f, nf) (alGet_mem hf)
  have hnt : nt.id = t := (wf_parts hwf).2.2.1 (t, nt) (alGet_mem ht)
  obtain ⟨k, rfl⟩ : ∃ k, fuel = k + 2 := ⟨fuel - 2, by omega⟩
  unfold find
  rw [hf, ht]
  dsimp only
  obtain ⟨q, hq, hq0⟩ := reset_newState p nf
  rw [hq]
  dsimp only
  rw [hq0]
  dsimp only
  set s0 : NodeSearchState ND :=
    { node := nf, parent := none, closed := false, openFlag := 1,
      distanceToSource := .fin 0, fScore := o.heuristic nf nt, heapIndex := -1 } with hs0
  set p1 : StatePool ND := { q with nodeCache := q.nodeCache.set 0 s0 } with hp1
  have hp10 : p1.nodeCache.get? 0 = some s0 := get?_set_self_of_some hq0 s0
  set st0 : FindSt ND := { pool := p1, nodeState := [(f, 0)], openSet := [0] } with hst0
  show (findLoop o g nt (k + 2) st0).1 = _
  have hpop : st0.heapPop [0] = some (0, []) := rfl
  rw [show k + 2 = (k + 1) + 1 from rfl]
  unfold findLoop
  rw [show st0.openSet = [0] from rfl]
  simp only [List.isEmpty_cons, Bool.false_eq_true, if_false, hpop]
  try dsimp only
  rw [hp10]
  try dsimp only
  by_cases hft : f = t
  · have hnfnt : nf = nt := by
      rw [hft] at hf
      rw [hf] at ht
      exact Option.some_inj.mp ht
    have hgoal : goalReached s0 nt = true := by
      unfold goalReached
      rw [hs0]
      simp [hnfnt]
    rw [hgoal]
    have hrec : reconstructPath p1 (q.nodeCache.length + 1) 0 = [nf] := by
      unfold reconstructPath
      rw [hp10]
    simp [hft, hrec]
  · have hgoal : goalReached s0 nt = false := by
      unfold goalReached
      rw [hs0]
      simp only [decide_eq_false_iff_not]
      intro hh
      exact hft ((hnf.symm.trans hh).trans hnt)
    rw [hgoal]
    try dsimp only
    obtain ⟨ts, hts, hall⟩ := linkedNodes_wf_ok hwf hf o.oriented
    have hsid : s0.node.id = f := hnf
    rw [show s0.node.id = f from hnf, hts]
    dsimp only
    set st1 : FindSt ND :=
      FindSt.setState { pool := p1, nodeState := [(f, 0)], openSet := [] } 0
        { s0 with closed := true } with hst1
    have h10 : st1.pool.nodeCache.get? 0 = some { s0 with closed := true } := by
      rw [hst1]
      exact get?_set_self_of_some hp10 _
    have hns1 : alGet st1.nodeState nf.id = some 0 := by
      rw [hst1]
      show alGet [(f, 0)] nf.id = some 0
      rw [hnf, alGet_cons]
      simp
    have hfold : ts.foldl (expandNeighbor o g nt 0) st1 = st1 :=
      foldl_expandNeighbor_skip o g nt 0 ts st1 hall hns1 h10 rfl
    rw [hfold]
    unfold findLoop
    rw [if_neg hft]
    cases k with
    | zero => simp [st1, FindSt.setState]
    | succ k2 => simp [st1, FindSt.setState]

/-! ### Claim C2 -/

/-- C2: with the store invariants, `find` throws exactly when the source or
destination id is absent from the graph; with both present it returns a node
array or the `NO_PATH` sentinel (never an exception); and the sentinel is a
distinguished value, different from every exception and from every array,
including the empty and one-element arrays.  (`gDisc`, two isolated nodes,
instantiates the disconnected-components case: `find` returns `NO_PATH`.) -/
theorem c2_find_error_iff_absent_id (g : Graph ND LD) (p : StatePool ND) (fuel : Nat)
    (f t : NId) (hwf : g.wfB = true) (hfuel : 2 ≤ fuel) :
    (((g.getNode f).isNone = true ∨ (g.getNode t).isNone = true) ↔
      ∃ m, (find defaultOpts g p fuel f t).1 = .err m) ∧
    ((g.getNode f).isSome = true → (g.getNode t).isSome = true →
      (find defaultOpts g p fuel f t).1 = .noPath ∨
        ∃ l, (find defaultOpts g p fuel f t).1 = .path l) ∧
    (∀ l m, (FindRes.noPath : FindRes ND) ≠ .path l ∧
      (FindRes.noPath : FindRes ND) ≠ .err m) := by
  have hboth : (g.getNode f).isSome = true → (g.getNode t).isSome = true →
      (find defaultOpts g p fuel f t).1 = .noPath ∨
        ∃ l, (find defaultOpts g p fuel f t).1 = .path l := by
    intro hfs hts
    obtain ⟨nf, hnf⟩ := Option.isSome_iff_exists.mp hfs
    obtain ⟨nt, hnt⟩ := Option.isSome_iff_exists.mp hts
    rw [find_characterize defaultOpts hwf hnf hnt p hfuel]
    by_cases hft : f = t
    · exact Or.inr ⟨[nf], by rw [if_pos hft]⟩
    · exact Or.inl (by rw [if_neg hft])
  refine ⟨⟨?_, ?_⟩, hboth, ?_⟩
  · intro habs
    cases hx : g.getNode f with
    | none =>
      refine ⟨f.toStr ++ " is not defined in this graph", ?_⟩
      unfold find
      rw [hx]
    | some nf =>
      cases hy : g.getNode t with
      | none =>
        refine ⟨t.toStr ++ " is not defined in this graph", ?_⟩
        unfold find
        rw [hx, hy]
      | some nt =>
        rw [hx, hy] at habs
        simp at habs
  · intro ⟨m, hm⟩
    by_cases hfs : (g.getNode f).isSome = true
    · by_cases hts : (g.getNode t).isSome = true
      · rcases hboth hfs hts with hnp | ⟨l, hl⟩
        · rw [hm] at hnp
          simp at hnp
        · rw [hm] at hl
          simp at hl
      · right
        cases hy : g.getNode t with
        | none => rfl
        | some nt => rw [hy] at hts; simp at hts
    · left
      cases hx : g.getNode f with
      | none => rfl
      | some nf => rw [hx] at hfs; simp at hfs
  · intro l m
    exact ⟨by simp, by simp⟩

/-- C2 witness: on `g123` with an absent id the call throws; with ids 1, 3 it
returns the sentinel (here, because of the C1 bug, even though a path
exists); on the disconnected `gDisc` the result is `NO_PATH`, distinct from
every array and every exception. -/
theorem c2_witness :
    (((g123.getNode (.num 1)).isNone = true ∨ (g123.getNode (.num 7)).isNone = true) ↔
      ∃ m, (find defaultOpts g123 StatePool.empty 2 (.num 1) (.num 7)).1 = .err m) ∧
    ((g123.getNode (.num 1)).isSome = true → (g123.getNode (.num 7)).isSome = true →
      (find defaultOpts g123 StatePool.empty 2 (.num 1) (.num 7)).1 = .noPath ∨
        ∃ l, (find defaultOpts g123 StatePool.empty 2 (.num 1) (.num 7)).1 = .path l) ∧
    (∀ l m, (FindRes.noPath : FindRes Unit) ≠ .path l ∧
      (FindRes.noPath : FindRes Unit) ≠ .err m) :=
  c2_find_error_iff_absent_id g123 StatePool.empty 2 (.num 1) (.num 7) (by decide)
    (by decide)

/-! ### Claim C7 -/

/-- C7: `newState` hands out a fully reinitialized record — `parent = null`,
`closed = false`, `open = 0`, `distanceToSource = ∞`, `fScore = ∞`,
`heapIndex = -1`, `node` = the argument — whether the slot is recycled or
freshly allocated (the hypothesis `currentInCache ≤ nodeCache.length` is the
pool's dense-array invariant, maintained by `reset` and every `newState`);
consequently the result of a `find` call does not depend on the pool contents
carried over from earlier calls. -/
theorem c7_newState_resets_and_find_history_independent :
    (∀ (p : StatePool ND) (n : NodeObj ND), p.currentInCache ≤ p.nodeCache.length →
      (p.newState n).1 = p.currentInCache ∧
      (p.newState n).2.currentInCache = p.currentInCache + 1 ∧
      (p.newState n).2.nodeCache.get? p.currentInCache =
        some { node := n, parent := none, closed := false, openFlag := 0,
               distanceToSource := .inf, fScore := .inf, heapIndex := -1 }) ∧
    (∀ (o : AstarOpts ND LD) (g : Graph ND LD) (p q : StatePool ND) (fuel : Nat)
      (f t : NId), g.wfB = true → 2 ≤ fuel →
      (find o g p fuel f t).1 = (find o g q fuel f t).1) := by
  constructor
  · intro p n hle
    unfold StatePool.newState
    cases h : p.nodeCache.get? p.currentInCache with
    | some s =>
      exact ⟨rfl, rfl, get?_set_self_of_some h _⟩
    | none =>
      have hlen : p.currentInCache = p.nodeCache.length := by
        have := List.get?_eq_none.mp h
        omega
      refine ⟨rfl, rfl, ?_⟩
      rw [hlen]
      simp [List.get?_eq_getElem?, List.getElem?_concat_length]
      rfl
  · intro o g p q fuel f t hwf hfuel
    cases hx : g.getNode f with
    | none =>
      unfold find
      rw [hx]
    | some nf =>
      cases hy : g.getNode t with
      | none =>
        unfold find
        rw [hx, hy]
      | some nt =>
        rw [find_characterize o hwf hx hy p hfuel, find_characterize o hwf hx hy q hfuel]

theorem c7_witness :
    ((dirtyPool.newState wNode2).1 = dirtyPool.currentInCache ∧
      (dirtyPool.newState wNode2).2.currentInCache = dirtyPool.currentInCache + 1 ∧
      (dirtyPool.newState wNode2).2.nodeCache.get? dirtyPool.currentInCache =
        some { node := wNode2, parent := none, closed := false, openFlag := 0,
               distanceToSource := .inf, fScore := .inf, heapIndex := -1 }) ∧
    (find defaultOpts g123 dirtyPool 2 (.num 1) (.num 3)).1 =
      (find defaultOpts g123 StatePool.empty 2 (.num 1) (.num 3)).1 :=
  ⟨(@c7_newState_resets_and_find_history_independent Unit Unit).1 dirtyPool wNode2
      (by decide),
    (@c7_newState_resets_and_find_history_independent Unit Unit).2 defaultOpts g123
      dirtyPool StatePool.empty 2 (.num 1) (.num 3) (by decide) (by decide)⟩

/-! ### The batching discipline of the modification bracket -/

theorem frameRel_refl (g : Graph ND LD) : FrameRel g g :=
  ⟨rfl, rfl, rfl, rfl, rfl, rfl⟩

theorem nested_id : Nested (fun g : Graph ND LD => g) := by
  intro g h hfr hg hh
  exact ⟨hfr, rfl, rfl, rfl, rfl, [], by simp, by simp⟩

theorem nested_comp {F K : Graph ND LD → Graph ND LD} (hF : Nested F) (hK : Nested K) :
    Nested (fun g => K (F g)) := by
  intro g h hfr hg hh
  obtain ⟨hfr1, hsg1, hsh1, heg1, heh1, δ1, hcg1, hch1⟩ := hF g h hfr hg hh
  obtain ⟨hfr2, hsg2, hsh2, heg2, heh2, δ2, hcg2, hch2⟩ :=
    hK (F g) (F h) hfr1 (by omega) (by omega)
  refine ⟨hfr2, ?_, ?_, heg2.trans heg1, heh2.trans heh1,
    δ1 ++ δ2, ?_, ?_⟩
  · show (K (F g)).suspendEvents = g.suspendEvents
    exact hsg2.trans hsg1
  · show (K (F h)).suspendEvents = h.suspendEvents
    exact hsh2.trans hsh1
  · rw [hcg2, hcg1, List.append_assoc]
  · rw [hch2, hch1, List.append_assoc]

theorem nested_foldl {α : Type} {step : Graph ND LD → α → Graph ND LD}
    (hstep : ∀ a, Nested (fun g => step g a)) :
    ∀ L : List α, Nested (fun g => L.foldl step g) := by
  intro L
  induction L with
  | nil => exact nested_id
  | cons a rest ih =>
    have := nested_comp (hstep a) ih
    intro g h hfr hg hh
    simpa using this g h hfr hg hh

/-- Wrapping a nested transformer in the enter/exit bracket is again nested:
at suspension depth ≥ 1 the exit emits nothing. -/
theorem nested_bracket {B : Graph ND LD → Graph ND LD} (hB : Nested B) :
    Nested (fun g => (B g.enterModification).exitModification) := by
  intro g h hfr hg hh
  have hfr' : FrameRel g.enterModification h.enterModification := hfr
  obtain ⟨hfr1, hsg1, hsh1, heg1, heh1, δ, hcg1, hch1⟩ :=
    hB g.enterModification h.enterModification hfr' (by simp [Graph.enterModification])
      (by simp [Graph.enterModification])
  have hsg1' : (B g.enterModification).suspendEvents = g.suspendEvents + 1 := hsg1
  have hsh1' : (B h.enterModification).suspendEvents = h.suspendEvents + 1 := hsh1
  have hexit : ∀ (x : Graph ND LD) (s : Nat), x.suspendEvents = s + 1 → 1 ≤ s →
      x.exitModification = { x with suspendEvents := s } := by
    intro x s hx hs
    unfold Graph.exitModification
    dsimp only
    rw [hx]
    have : ¬(s + 1 - 1 = 0 ∧ x.changes ≠ []) := by
      intro ⟨h1, _⟩
      omega
    rw [if_neg this]
    simp
  dsimp only
  rw [hexit _ _ hsg1' hg, hexit _ _ hsh1' hh]
  exact ⟨hfr1, rfl, rfl, heg1, heh1, δ, hcg1, hch1⟩

/-- From a quiescent state, a bracketed call flushes exactly the changes its
body records (read off from the same body run at suspension depth 1), as one
batch — or nothing when the body records nothing. -/
theorem bracket_quiescent {B : Graph ND LD → Graph ND LD} (hB : Nested B)
    (g : Graph ND LD) (hs : g.suspendEvents = 0) (hc : g.changes = []) :
    (B g.enterModification).exitModification.suspendEvents = 0 ∧
    (B g.enterModification).exitModification.changes = [] ∧
    (B g.enterModification).exitModification.emitted =
      g.emitted ++
        (if (B (({ g with suspendEvents := 1 } : Graph ND LD).enterModification)).exitModification.changes = []
         then []
         else [(B (({ g with suspendEvents := 1 } : Graph ND LD).enterModification)).exitModification.changes]) := by
  set g1 : Graph ND LD := { g with suspendEvents := 1 } with hg1
  have hfr : FrameRel g.enterModification g1.enterModification := frameRel_refl _
  obtain ⟨hfr1, hsg1, hsh1, heg1, heh1, δ, hcg1, hch1⟩ :=
    hB g.enterModification g1.enterModification hfr
      (by simp [Graph.enterModification]) (by simp [Graph.enterModification])
  have hsg1' : (B g.enterModification).suspendEvents = 1 := by
    rw [hsg1]
    show g.suspendEvents + 1 = 1
    omega
  have hsh1' : (B g1.enterModification).suspendEvents = 2 := hsh1
  have hcg1' : (B g.enterModification).changes = δ := by
    rw [hcg1]
    show g.changes ++ δ = δ
    rw [hc]
    simp
  have hch1' : (B g1.enterModification).changes = δ := by
    rw [hch1]
    show g1.changes ++ δ = δ
    rw [hg1]
    show g.changes ++ δ = δ
    rw [hc]
    simp
  have hrun1 : (B g1.enterModification).exitModification.changes = δ := by
    unfold Graph.exitModification
    dsimp only
    rw [hsh1']
    have : ¬(2 - 1 = 0 ∧ (B g1.enterModification).changes ≠ []) := by
      intro ⟨h1, _⟩
      omega
    rw [if_neg this, hch1']
  rw [hrun1]
  unfold Graph.exitModification
  dsimp only
  rw [hsg1', hcg1']
  by_cases hδ : δ = []
  · rw [hδ]
    have : ¬((1 : Nat) - 1 = 0 ∧ ([] : List Change) ≠ []) := by simp
    rw [if_neg this]
    refine ⟨rfl, rfl, ?_⟩
    show (B g.enterModification).emitted = _
    simp only [if_pos trivial, List.append_nil]
    exact heg1
  · have : ((1 : Nat) - 1 = 0 ∧ δ ≠ []) := ⟨by omega, hδ⟩
    rw [if_pos this]
    refine ⟨rfl, rfl, ?_⟩
    show (B g.enterModification).emitted ++ [δ] = _
    rw [if_neg hδ, heg1]
    rfl

theorem nested_recordNodeChange (n : NodeObj ND) (t : ChangeType) :
    Nested (fun g : Graph ND LD => g.recordNodeChange n t) := by
  intro g h hfr hg hh
  obtain ⟨h1, h2, h3, h4, h5, h6⟩ := hfr
  unfold Graph.recordNodeChange
  dsimp only
  rw [h6]
  by_cases hl : h.listening = true
  · rw [if_pos hl, if_pos hl]
    exact ⟨⟨h1, h2, h3, h4, h5, rfl⟩, rfl, rfl, rfl, rfl, [.nodeCh n.id t], rfl, rfl⟩
  · rw [if_neg hl, if_neg hl]
    exact ⟨⟨h1, h2, h3, h4, h5, h6⟩, rfl, rfl, rfl, rfl, [], by simp, by simp⟩

theorem nested_recordLinkChange (r : Nat) (t : ChangeType) :
    Nested (fun g : Graph ND LD => g.recordLinkChange r t) := by
  intro g h hfr hg hh
  obtain ⟨h1, h2, h3, h4, h5, h6⟩ := hfr
  unfold Graph.recordLinkChange
  dsimp only
  rw [h6]
  by_cases hl : h.listening = true
  · rw [if_pos hl, if_pos hl]
    exact ⟨⟨h1, h2, h3, h4, h5, rfl⟩, rfl, rfl, rfl, rfl, [.linkCh r t], rfl, rfl⟩
  · rw [if_neg hl, if_neg hl]
    exact ⟨⟨h1, h2, h3, h4, h5, h6⟩, rfl, rfl, rfl, rfl, [], by simp, by simp⟩

theorem nested_nodeLinksDelete (k : NId) (r : Nat) :
    Nested (fun g : Graph ND LD => g.nodeLinksDelete k r) := by
  intro g h hfr hg hh
  obtain ⟨h1, h2, h3, h4, h5, h6⟩ := hfr
  unfold Graph.nodeLinksDelete
  dsimp only
  rw [h2]
  cases hget : alGet h.nodes k with
  | none => exact ⟨⟨h1, h2, h3, h4, h5, h6⟩, rfl, rfl, rfl, rfl, [], by simp, by simp⟩
  | some n =>
    obtain ⟨ni, nl, nd⟩ := n
    cases nl with
    | none => exact ⟨⟨h1, h2, h3, h4, h5, h6⟩, rfl, rfl, rfl, rfl, [], by simp, by simp⟩
    | some ls =>
      exact ⟨⟨h1, rfl, h3, h4, h5, h6⟩, rfl, rfl, rfl, rfl, [], by simp, by simp⟩

theorem nested_nodeAddLink (k : NId) (r : Nat) :
    Nested (fun g : Graph ND LD => g.nodeAddLink k r) := by
  intro g h hfr hg hh
  obtain ⟨h1, h2, h3, h4, h5, h6⟩ := hfr
  unfold Graph.nodeAddLink
  dsimp only
  rw [h2]
  cases hget : alGet h.nodes k with
  | none => exact ⟨⟨h1, h2, h3, h4, h5, h6⟩, rfl, rfl, rfl, rfl, [], by simp, by simp⟩
  | some n =>
    exact ⟨⟨h1, rfl, h3, h4, h5, h6⟩, rfl, rfl, rfl, rfl, [], by simp, by simp⟩

theorem nested_addNodeBody (i : NId) (d : Option ND) :
    Nested (fun g : Graph ND LD => (g.addNodeBody i d).2) := by
  intro g h hfr hg hh
  obtain ⟨a1, a2, a3, a4, a5, a6⟩ := hfr
  unfold Graph.addNodeBody Graph.getNode
  dsimp only
  rw [a2]
  cases hget : alGet h.nodes i with
  | some node =>
    have hfr' : FrameRel
        ({ g with nodes := alSet h.nodes i { node with data := d } } : Graph ND LD)
        ({ h with nodes := alSet h.nodes i { node with data := d } } : Graph ND LD) :=
      ⟨a1, rfl, a3, a4, a5, a6⟩
    exact nested_recordNodeChange { node with data := d } .update _ _ hfr' hg hh
  | none =>
    obtain ⟨⟨b1, b2, b3, b4, b5, b6⟩, hs1, hs2, he1, he2, δ, hc1, hc2⟩ :=
      nested_recordNodeChange { id := i, links := none, data := d } .add g h
        ⟨a1, a2, a3, a4, a5, a6⟩ hg hh
    exact ⟨⟨b1, by dsimp only; rw [b2], b3, b4, b5, b6⟩, hs1, hs2, he1, he2, δ, hc1, hc2⟩

theorem nested_addNode (i : NId) (d : Option ND) :
    Nested (fun g : Graph ND LD => (g.addNode i d).2) := by
  have := nested_bracket (@nested_addNodeBody ND LD i d)
  intro g h hfr hg hh
  exact this g h hfr hg hh

theorem nested_removeLinkInstanceBody (ref : Nat) (l : LinkObj LD) :
    Nested (fun g : Graph ND LD => g.removeLinkInstanceBody ref l) := by
  have step1 : Nested (fun g : Graph ND LD => { g with links := alDel g.links l.id }) := by
    intro g h hfr hg hh
    obtain ⟨a1, a2, a3, a4, a5, a6⟩ := hfr
    exact ⟨⟨a1, a2, by dsimp only; rw [a3], a4, a5, a6⟩, rfl, rfl, rfl, rfl, [],
      by simp, by simp⟩
  have := nested_comp (nested_comp (nested_comp step1 (nested_nodeLinksDelete l.fromId ref))
    (nested_nodeLinksDelete l.toId ref)) (nested_recordLinkChange ref .remove)
  intro g h hfr hg hh
  exact this g h hfr hg hh

theorem nested_removeLinkInstance (r : Nat) :
    Nested (fun g : Graph ND LD => (g.removeLinkInstance (some r)).2) := by
  intro g h hfr hg hh
  have ha := hfr.2.2.2.1
  have hl := hfr.2.2.1
  unfold Graph.removeLinkInstance
  dsimp only
  rw [ha]
  cases hget : h.linkArena.get? r with
  | none => exact ⟨hfr, rfl, rfl, rfl, rfl, [], by simp, by simp⟩
  | some l =>
    rw [hl]
    dsimp only
    by_cases hid : (alGet h.links l.id).isNone = true
    · rw [if_pos hid, if_pos hid]
      exact ⟨hfr, rfl, rfl, rfl, rfl, [], by simp, by simp⟩
    · rw [if_neg hid, if_neg hid]
      exact nested_bracket (nested_removeLinkInstanceBody r l) g h hfr hg hh

theorem nested_removeNodeBody (i : NId) (node : NodeObj ND) :
    Nested (fun g : Graph ND LD => g.removeNodeBody i node) := by
  have hmid : Nested (fun g : Graph ND LD =>
      match alGet g.nodes i with
      | some n => { g with nodes := alSet g.nodes i { n with links := none } }
      | none => g) := by
    intro g h hfr hg hh
    obtain ⟨a1, a2, a3, a4, a5, a6⟩ := hfr
    dsimp only
    rw [a2]
    cases hget : alGet h.nodes i with
    | none => exact ⟨⟨a1, a2, a3, a4, a5, a6⟩, rfl, rfl, rfl, rfl, [], by simp, by simp⟩
    | some n => exact ⟨⟨a1, rfl, a3, a4, a5, a6⟩, rfl, rfl, rfl, rfl, [], by simp, by simp⟩
  have hdel : Nested (fun g : Graph ND LD => { g with nodes := alDel g.nodes i }) := by
    intro g h hfr hg hh
    obtain ⟨a1, a2, a3, a4, a5, a6⟩ := hfr
    exact ⟨⟨a1, by dsimp only; rw [a2], a3, a4, a5, a6⟩, rfl, rfl, rfl, rfl, [],
      by simp, by simp⟩
  intro g h hfr hg hh
  cases hnl : node.links with
  | none =>
    unfold Graph.removeNodeBody
    rw [hnl]
    dsimp only
    exact (nested_comp hdel (nested_recordNodeChange node .remove)) g h hfr hg hh
  | some ls =>
    unfold Graph.removeNodeBody
    rw [hnl]
    dsimp only
    exact (nested_comp (nested_comp
        (nested_comp (nested_foldl (fun r => nested_removeLinkInstance r) ls) hmid) hdel)
      (nested_recordNodeChange node .remove)) g h hfr hg hh

theorem nested_removeNode (i : NId) :
    Nested (fun g : Graph ND LD => (g.removeNode i).2) := by
  intro g h hfr hg hh
  have h2 := hfr.2.1
  unfold Graph.removeNode Graph.getNode
  dsimp only
  rw [h2]
  cases hget : alGet h.nodes i with
  | none => exact ⟨hfr, rfl, rfl, rfl, rfl, [], by simp, by simp⟩
  | some node =>
    exact nested_bracket (nested_removeNodeBody i node) g h hfr hg hh

/-- `createLink` only transforms the store content, deterministically in the
store content; it never touches the event bookkeeping. -/
theorem createLink_frame (f t : NId) (d : Option LD) (g h : Graph ND LD)
    (hfr : FrameRel g h) :
    (g.createLink f t d).1 = (h.createLink f t d).1 ∧
    FrameRel (g.createLink f t d).2 (h.createLink f t d).2 ∧
    (g.createLink f t d).2.suspendEvents = g.suspendEvents ∧
    (h.createLink f t d).2.suspendEvents = h.suspendEvents ∧
    (g.createLink f t d).2.emitted = g.emitted ∧
    (h.createLink f t d).2.emitted = h.emitted ∧
    (g.createLink f t d).2.changes = g.changes ∧
    (h.createLink f t d).2.changes = h.changes := by
  obtain ⟨a1, a2, a3, a4, a5, a6⟩ := hfr
  unfold Graph.createLink
  rw [a1]
  by_cases hmg : h.multigraph = true
  · rw [if_pos hmg, if_pos hmg]
    unfold Graph.createUniqueLink
    rw [uniqueLinkId_congr a3 a5, a4]
    cases h.uniqueLinkId f t with
    | mk linkId me =>
      exact ⟨rfl, ⟨a1, a2, a3, rfl, rfl, a6⟩, rfl, rfl, rfl, rfl, rfl, rfl⟩
  · rw [if_neg hmg, if_neg hmg]
    unfold Graph.createSingleLink
    dsimp only
    rw [a3, a4]
    cases alGet h.links (makeId f t) with
    | none => exact ⟨rfl, ⟨a1, a2, rfl, rfl, a5, a6⟩, rfl, rfl, rfl, rfl, rfl, rfl⟩
    | some prevRef =>
      dsimp only
      cases h.linkArena.get? prevRef with
      | none => exact ⟨rfl, ⟨a1, a2, a3, a4, a5, a6⟩, rfl, rfl, rfl, rfl, rfl, rfl⟩
      | some prev => exact ⟨rfl, ⟨a1, a2, rfl, rfl, a5, a6⟩, rfl, rfl, rfl, rfl, rfl, rfl⟩

theorem nested_addLinkFinishBody (f t : NId) (ref : Nat) :
    Nested (fun g : Graph ND LD => g.addLinkFinishBody f t ref) := by
  intro g h hfr hg hh
  obtain ⟨a1, a2, a3, a4, a5, a6⟩ := hfr
  unfold Graph.addLinkFinishBody
  dsimp only
  rw [show h.linkArena.get? ref = g.linkArena.get? ref from by rw [a4]]
  cases hget : g.linkArena.get? ref with
  | none => exact ⟨⟨a1, a2, a3, a4, a5, a6⟩, rfl, rfl, rfl, rfl, [], by simp, by simp⟩
  | some link =>
    dsimp only
    rw [show alGet h.links link.id = alGet g.links link.id from by rw [a3]]
    have step1 : Nested (fun x : Graph ND LD => { x with links := alSet x.links link.id ref }) := by
      intro x y hxy hx hy
      obtain ⟨b1, b2, b3, b4, b5, b6⟩ := hxy
      exact ⟨⟨b1, b2, by dsimp only; rw [b3], b4, b5, b6⟩, rfl, rfl, rfl, rfl, [],
        by simp, by simp⟩
    have stepIf : Nested (fun x : Graph ND LD => if f ≠ t then x.nodeAddLink t ref else x) := by
      by_cases hft : f ≠ t
      · intro x y hxy hx hy
        dsimp only
        rw [if_pos hft, if_pos hft]
        exact nested_nodeAddLink t ref x y hxy hx hy
      · intro x y hxy hx hy
        dsimp only
        rw [if_neg hft, if_neg hft]
        exact ⟨hxy, rfl, rfl, rfl, rfl, [], by simp, by simp⟩
    exact (nested_comp (nested_comp (nested_comp step1 (nested_nodeAddLink f ref)) stepIf)
      (nested_recordLinkChange ref (if (alGet g.links link.id).isSome then .update else .add)))
      g h ⟨a1, a2, a3, a4, a5, a6⟩ hg hh

theorem nested_ensureNode (i : NId) :
    Nested (fun g : Graph ND LD => if (g.getNode i).isSome then g else (g.addNode i none).2) := by
  intro g h hfr hg hh
  have hn : g.getNode i = h.getNode i := by unfold Graph.getNode; rw [hfr.2.1]
  dsimp only
  rw [hn]
  by_cases hs : (h.getNode i).isSome = true
  · rw [if_pos hs, if_pos hs]
    exact ⟨hfr, rfl, rfl, rfl, rfl, [], by simp, by simp⟩
  · rw [if_neg hs, if_neg hs]
    exact nested_addNode i none g h hfr hg hh

theorem nested_linkTail (f t : NId) (d : Option LD) :
    Nested (fun g : Graph ND LD =>
      (g.createLink f t d).2.addLinkFinishBody f t (g.createLink f t d).1) := by
  intro g h hfr hg hh
  obtain ⟨href, hfrc, hsgc, hshc, hegc, hehc, hcgc, hchc⟩ := createLink_frame f t d g h hfr
  dsimp only
  rw [href]
  have h1 : 1 ≤ (g.createLink f t d).2.suspendEvents := by rw [hsgc]; exact hg
  have h2 : 1 ≤ (h.createLink f t d).2.suspendEvents := by rw [hshc]; exact hh
  obtain ⟨F1, F2, F3, F4, F5, δ, F6, F7⟩ :=
    nested_addLinkFinishBody f t ((h.createLink f t d).1) _ _ hfrc h1 h2
  refine ⟨F1, F2.trans hsgc, F3.trans hshc, F4.trans hegc, F5.trans hehc, δ, ?_, ?_⟩
  · rw [F6, hcgc]
  · rw [F7, hchc]

theorem nested_addLinkBody (f t : NId) (d : Option LD) :
    Nested (fun g : Graph ND LD => g.addLinkBody f t d) := by
  have := nested_comp (nested_comp (@nested_ensureNode ND LD f)
    (@nested_ensureNode ND LD t)) (nested_linkTail f t d)
  intro g h hfr hg hh
  have hres := this g h hfr hg hh
  unfold Graph.addLinkBody
  dsimp only
  exact hres

theorem nested_addLink (f t : NId) (d : Option LD) :
    Nested (fun g : Graph ND LD => (g.addLink f t d).2) := by
  intro g h hfr hg hh
  exact nested_bracket (nested_addLinkBody f t d) g h hfr hg hh

theorem nested_clearBody : Nested (fun g : Graph ND LD => g.clearBody) := by
  intro g h hfr hg hh
  unfold Graph.clearBody
  dsimp only
  rw [hfr.2.1]
  exact (nested_foldl (fun i => nested_removeNode i) (h.nodes.map fun p => p.2.id))
    g h hfr hg hh

theorem nested_clear : Nested (fun g : Graph ND LD => g.clear) := by
  intro g h hfr hg hh
  exact nested_bracket nested_clearBody g h hfr hg hh

theorem nested_removeLinkByIds (f t : NId) :
    Nested (fun g : Graph ND LD => (g.removeLinkByIds f t).2) := by
  intro g h hfr hg hh
  have hgl : g.getLink f t = h.getLink f t := by
    unfold Graph.getLink
    rw [hfr.2.2.1]
  unfold Graph.removeLinkByIds
  dsimp only
  rw [hgl]
  cases hget : h.getLink f t with
  | none => exact ⟨hfr, rfl, rfl, rfl, rfl, [], by simp, by simp⟩
  | some ref =>
    dsimp only
    exact nested_removeLinkInstance ref g h hfr hg hh

theorem nested_removeLinkByRef (r : Nat) :
    Nested (fun g : Graph ND LD => (g.removeLinkByRef r).2) := by
  intro g h hfr hg hh
  exact nested_removeLinkInstance r g h hfr hg hh

/-- Every public mutating call is a nested transformer. -/
theorem nested_runOp (op : GOp ND LD) : Nested (fun g : Graph ND LD => g.runOp op) := by
  cases op with
  | opAddNode i d =>
    intro g h hfr hg hh
    exact nested_addNode i d g h hfr hg hh
  | opAddLink f t d =>
    intro g h hfr hg hh
    exact nested_addLink f t d g h hfr hg hh
  | opRemoveNode i =>
    intro g h hfr hg hh
    exact nested_removeNode i g h hfr hg hh
  | opRemoveLinkIds f t =>
    intro g h hfr hg hh
    exact nested_removeLinkByIds f t g h hfr hg hh
  | opRemoveLinkRef r =>
    intro g h hfr hg hh
    exact nested_removeLinkByRef r g h hfr hg hh
  | opClear =>
    intro g h hfr hg hh
    exact nested_clear g h hfr hg hh

theorem runOp_noop_batch (g : Graph ND LD) (hs : g.suspendEvents = 0) (hc : g.changes = [])
    {op : GOp ND LD} (e0 : g.runOp op = g)
    (e1 : ({ g with suspendEvents := 1 } : Graph ND LD).runOp op =
      { g with suspendEvents := 1 }) :
    (g.runOp op).suspendEvents = 0 ∧ (g.runOp op).changes = [] ∧
    (g.runOp op).emitted = g.emitted ++
      (if (({ g with suspendEvents := 1 } : Graph ND LD).runOp op).changes = [] then []
       else [(({ g with suspendEvents := 1 } : Graph ND LD).runOp op).changes]) := by
  rw [e0, e1]
  refine ⟨hs, hc, ?_⟩
  have hc1 : ({ g with suspendEvents := 1 } : Graph ND LD).changes = [] := hc
  rw [hc1]
  simp

theorem runOp_bracket_batch {B : Graph ND LD → Graph ND LD} (hB : Nested B)
    (g : Graph ND LD) (hs : g.suspendEvents = 0) (hc : g.changes = [])
    {op : GOp ND LD}
    (e0 : g.runOp op = (B g.enterModification).exitModification)
    (e1 : ({ g with suspendEvents := 1 } : Graph ND LD).runOp op =
      (B (({ g with suspendEvents := 1 } : Graph ND LD).enterModification)).exitModification) :
    (g.runOp op).suspendEvents = 0 ∧ (g.runOp op).changes = [] ∧
    (g.runOp op).emitted = g.emitted ++
      (if (({ g with suspendEvents := 1 } : Graph ND LD).runOp op).changes = [] then []
       else [(({ g with suspendEvents := 1 } : Graph ND LD).runOp op).changes]) := by
  rw [e0, e1]
  exact bracket_quiescent hB g hs hc

/-- From a quiescent state, every public call leaves a quiescent state and
appends at most one batch to `emitted`: the change list its bracketed body
records (read off from the same call made at suspension depth 1), or nothing
when that list is empty. -/
theorem runOp_quiescent_batch (op : GOp ND LD) (g : Graph ND LD)
    (hs : g.suspendEvents = 0) (hc : g.changes = []) :
    (g.runOp op).suspendEvents = 0 ∧ (g.runOp op).changes = [] ∧
    (g.runOp op).emitted = g.emitted ++
      (if (({ g with suspendEvents := 1 } : Graph ND LD).runOp op).changes = [] then []
       else [(({ g with suspendEvents := 1 } : Graph ND LD).runOp op).changes]) := by
  cases op with
  | opAddNode i d =>
    exact runOp_bracket_batch (nested_addNodeBody i d) g hs hc rfl rfl
  | opAddLink f t d =>
    exact runOp_bracket_batch (nested_addLinkBody f t d) g hs hc rfl rfl
  | opClear =>
    exact runOp_bracket_batch nested_clearBody g hs hc rfl rfl
  | opRemoveNode i =>
    cases hn : g.getNode i with
    | none =>
      refine runOp_noop_batch g hs hc ?_ ?_
      · show (g.removeNode i).2 = g
        unfold Graph.removeNode
        rw [hn]
      · show (({ g with suspendEvents := 1 } : Graph ND LD).removeNode i).2 = _
        unfold Graph.removeNode
        rw [show ({ g with suspendEvents := 1 } : Graph ND LD).getNode i = none from hn]
    | some node =>
      refine runOp_bracket_batch (nested_removeNodeBody i node) g hs hc ?_ ?_
      · show (g.removeNode i).2 = _
        unfold Graph.removeNode
        rw [hn]
      · show (({ g with suspendEvents := 1 } : Graph ND LD).removeNode i).2 = _
        unfold Graph.removeNode
        rw [show ({ g with suspendEvents := 1 } : Graph ND LD).getNode i = some node from hn]
  | opRemoveLinkIds f t =>
    cases hgl : g.getLink f t with
    | none =>
      refine runOp_noop_batch g hs hc ?_ ?_
      · show (g.removeLinkByIds f t).2 = g
        unfold Graph.removeLinkByIds
        rw [hgl]
      · show (({ g with suspendEvents := 1 } : Graph ND LD).removeLinkByIds f t).2 = _
        unfold Graph.removeLinkByIds
        rw [show ({ g with suspendEvents := 1 } : Graph ND LD).getLink f t = none from hgl]
    | some ref =>
      cases har : g.linkArena.get? ref with
      | none =>
        refine runOp_noop_batch g hs hc ?_ ?_
        · show (g.removeLinkByIds f t).2 = g
          unfold Graph.removeLinkByIds Graph.removeLinkInstance
          rw [hgl]
          dsimp only
          rw [har]
        · show (({ g with suspendEvents := 1 } : Graph ND LD).removeLinkByIds f t).2 = _
          unfold Graph.removeLinkByIds Graph.removeLinkInstance
          rw [show ({ g with suspendEvents := 1 } : Graph ND LD).getLink f t = some ref from hgl]
          dsimp only
          rw [show ({ g with suspendEvents := 1 } : Graph ND LD).linkArena.get? ref = none from har]
      | some l =>
        by_cases hid : (alGet g.links l.id).isNone = true
        · refine runOp_noop_batch g hs hc ?_ ?_
          · show (g.removeLinkByIds f t).2 = g
            unfold Graph.removeLinkByIds Graph.removeLinkInstance
            rw [hgl]
            dsimp only
            rw [har]
            dsimp only
            rw [if_pos hid]
          · show (({ g with suspendEvents := 1 } : Graph ND LD).removeLinkByIds f t).2 = _
            unfold Graph.removeLinkByIds Graph.removeLinkInstance
            rw [show ({ g with suspendEvents := 1 } : Graph ND LD).getLink f t = some ref from hgl]
            dsimp only
            rw [show ({ g with suspendEvents := 1 } : Graph ND LD).linkArena.get? ref = some l from har]
            dsimp only
            rw [if_pos hid]
        · refine runOp_bracket_batch (nested_removeLinkInstanceBody ref l) g hs hc ?_ ?_
          · show (g.removeLinkByIds f t).2 = _
            unfold Graph.removeLinkByIds Graph.removeLinkInstance
            rw [hgl]
            dsimp only
            rw [har]
            dsimp only
            rw [if_neg hid]
          · show (({ g with suspendEvents := 1 } : Graph ND LD).removeLinkByIds f t).2 = _
            unfold Graph.removeLinkByIds Graph.removeLinkInstance
            rw [show ({ g with suspendEvents := 1 } : Graph ND LD).getLink f t = some ref from hgl]
            dsimp only
            rw [show ({ g with suspendEvents := 1 } : Graph ND LD).linkArena.get? ref = some l from har]
            dsimp only
            rw [if_neg hid]
  | opRemoveLinkRef r =>
    cases har : g.linkArena.get? r with
    | none =>
      refine runOp_noop_batch g hs hc ?_ ?_
      · show (g.removeLinkByRef r).2 = g
        unfold Graph.removeLinkByRef Graph.removeLinkInstance
        dsimp only
        rw [har]
      · show (({ g with suspendEvents := 1 } : Graph ND LD).removeLinkByRef r).2 = _
        unfold Graph.removeLinkByRef Graph.removeLinkInstance
        dsimp only
        rw [show ({ g with suspendEvents := 1 } : Graph ND LD).linkArena.get? r = none from har]
    | some l =>
      by_cases hid : (alGet g.links l.id).isNone = true
      · refine runOp_noop_batch g hs hc ?_ ?_
        · show (g.removeLinkByRef r).2 = g
          unfold Graph.removeLinkByRef Graph.removeLinkInstance
          dsimp only
          rw [har]
          dsimp only
          rw [if_pos hid]
        · show (({ g with suspendEvents := 1 } : Graph ND LD).removeLinkByRef r).2 = _
          unfold Graph.removeLinkByRef Graph.removeLinkInstance
          dsimp only
          rw [show ({ g with suspendEvents := 1 } : Graph ND LD).linkArena.get? r = some l from har]
          dsimp only
          rw [if_pos hid]
      · refine runOp_bracket_batch (nested_removeLinkInstanceBody r l) g hs hc ?_ ?_
        · show (g.removeLinkByRef r).2 = _
          unfold Graph.removeLinkByRef Graph.removeLinkInstance
          dsimp only
          rw [har]
          dsimp only
          rw [if_neg hid]
        · show (({ g with suspendEvents := 1 } : Graph ND LD).removeLinkByRef r).2 = _
          unfold Graph.removeLinkByRef Graph.removeLinkInstance
          dsimp only
          rw [show ({ g with suspendEvents := 1 } : Graph ND LD).linkArena.get? r = some l from har]
          dsimp only
          rw [if_neg hid]

/-- C3: change-notification batching.  (i) While a compound operation is still
in progress (suspension depth ≥ 1), no public mutating call delivers any
notification: `emitted` is unchanged.  (ii) From a quiescent state, a public
call returns to a quiescent state and delivers AT MOST one batched
notification, containing exactly the constituent change records its body
records, in order (read off from the same call at suspension depth 1); a call
that records no changes delivers no notification at all, which refutes the
claim's "exactly once per public call". -/
theorem c3_notification_batching (op : GOp ND LD) (g : Graph ND LD) :
    (1 ≤ g.suspendEvents → (g.runOp op).emitted = g.emitted) ∧
    (g.suspendEvents = 0 → g.changes = [] →
      (g.runOp op).suspendEvents = 0 ∧ (g.runOp op).changes = [] ∧
      (g.runOp op).emitted = g.emitted ++
        (if (({ g with suspendEvents := 1 } : Graph ND LD).runOp op).changes = [] then []
         else [(({ g with suspendEvents := 1 } : Graph ND LD).runOp op).changes])) := by
  constructor
  · intro hsu
    exact (nested_runOp op g g (frameRel_refl g) hsu hsu).2.2.2.1
  · intro hs hc
    exact runOp_quiescent_batch op g hs hc

/-- C3 counterexample to "the listener is invoked exactly once for that
call": on a listening graph, `removeNode` of an absent id is a public
mutating call that completes without delivering any notification. -/
theorem c3_counterexample_noop_call_emits_nothing :
    gL.listening = true ∧
    (gL.runOp
        (.opRemoveNode (.num 1))).emitted = [] ∧
    (gL.runOp
        (.opAddNode (.num 1) none)).emitted ≠ [] := by
  refine ⟨rfl, rfl, ?_⟩
  decide

theorem c3_witness :
    (gL1.runOp (.opAddNode (.num 1) none)).emitted = gL1.emitted ∧
    ((gL.runOp (.opAddNode (.num 1) none)).suspendEvents = 0 ∧
     (gL.runOp (.opAddNode (.num 1) none)).changes = [] ∧
     (gL.runOp (.opAddNode (.num 1) none)).emitted = gL.emitted ++
       (if (({ gL with suspendEvents := 1 } : Graph Unit Unit).runOp
              (.opAddNode (.num 1) none)).changes = [] then []
        else [(({ gL with suspendEvents := 1 } : Graph Unit Unit).runOp
              (.opAddNode (.num 1) none)).changes])) :=
  ⟨(c3_notification_batching (.opAddNode (.num 1) none) gL1).1 (by decide),
   (c3_notification_batching (.opAddNode (.num 1) none) gL).2 rfl rfl⟩

theorem alSet_map_fst {κ α : Type} [DecidableEq κ] {m : List (κ × α)} {k : κ} {v' : α}
    (h : alGet m k = some v') (v : α) : (alSet m k v).map Prod.fst = m.map Prod.fst := by
  induction m with
  | nil => exact absurd h (by simp [alGet])
  | cons p rest ih =>
    rw [alGet_cons] at h
    by_cases hp : p.1 = k
    · simp [alSet, hp]
    · rw [if_neg hp] at h
      simp [alSet, hp, ih h]

theorem alGet_isSome_of_mem_keys {κ α : Type} [DecidableEq κ] {m : List (κ × α)} {k : κ}
    (h : k ∈ m.map Prod.fst) : (alGet m k).isSome = true := by
  induction m with
  | nil => simp at h
  | cons p rest ih =>
    rw [alGet_cons]
    by_cases hp : p.1 = k
    · simp [hp]
    · simp only [List.map_cons, List.mem_cons] at h
      rcases h with h | h
      · exact absurd h.symm hp
      · simp only [hp, if_false]
        exact ih h

theorem nodeLinksDelete_map_fst (g : Graph ND LD) (k : NId) (r : Nat) :
    (g.nodeLinksDelete k r).nodes.map Prod.fst = g.nodes.map Prod.fst := by
  unfold Graph.nodeLinksDelete
  cases hn : alGet g.nodes k with
  | none => rfl
  | some n =>
    obtain ⟨ni, nl, nd⟩ := n
    cases nl with
    | none => rfl
    | some ls =>
      dsimp only
      exact alSet_map_fst hn _

theorem nodeLinksDelete_changes (g : Graph ND LD) (k : NId) (r : Nat) :
    (g.nodeLinksDelete k r).changes = g.changes := by
  unfold Graph.nodeLinksDelete
  cases hn : alGet g.nodes k with
  | none => rfl
  | some n =>
    obtain ⟨ni, nl, nd⟩ := n
    cases nl <;> rfl

theorem nodeLinksDelete_emitted (g : Graph ND LD) (k : NId) (r : Nat) :
    (g.nodeLinksDelete k r).emitted = g.emitted := by
  unfold Graph.nodeLinksDelete
  cases hn : alGet g.nodes k with
  | none => rfl
  | some n =>
    obtain ⟨ni, nl, nd⟩ := n
    cases nl <;> rfl

theorem nodeLinksDelete_suspendEvents (g : Graph ND LD) (k : NId) (r : Nat) :
    (g.nodeLinksDelete k r).suspendEvents = g.suspendEvents := by
  unfold Graph.nodeLinksDelete
  cases hn : alGet g.nodes k with
  | none => rfl
  | some n =>
    obtain ⟨ni, nl, nd⟩ := n
    cases nl <;> rfl

theorem nodeLinksDelete_listening (g : Graph ND LD) (k : NId) (r : Nat) :
    (g.nodeLinksDelete k r).listening = g.listening := by
  unfold Graph.nodeLinksDelete
  cases hn : alGet g.nodes k with
  | none => rfl
  | some n =>
    obtain ⟨ni, nl, nd⟩ := n
    cases nl <;> rfl

theorem recordLinkChange_suspendEvents (g : Graph ND LD) (ref : Nat) (t : ChangeType) :
    (g.recordLinkChange ref t).suspendEvents = g.suspendEvents := by
  unfold Graph.recordLinkChange
  split <;> rfl

theorem recordLinkChange_emitted (g : Graph ND LD) (ref : Nat) (t : ChangeType) :
    (g.recordLinkChange ref t).emitted = g.emitted := by
  unfold Graph.recordLinkChange
  split <;> rfl

theorem recordLinkChange_listening (g : Graph ND LD) (ref : Nat) (t : ChangeType) :
    (g.recordLinkChange ref t).listening = g.listening := by
  unfold Graph.recordLinkChange
  split <;> rfl

theorem recordLinkChange_changes_listening {g : Graph ND LD} (ref : Nat) (t : ChangeType)
    (hl : g.listening = true) :
    (g.recordLinkChange ref t).changes = g.changes ++ [Change.linkCh ref t] := by
  unfold Graph.recordLinkChange
  rw [if_pos hl]

theorem exitModification_of_suspend2 {g : Graph ND LD} (h : g.suspendEvents = 2) :
    g.exitModification = { g with suspendEvents := 1 } := by
  unfold Graph.exitModification
  dsimp only
  rw [h]
  have : ¬((2 : Nat) - 1 = 0 ∧ g.changes ≠ []) := by
    intro ⟨h1, _⟩
    omega
  rw [if_neg this]

theorem mem_nodeLinksAt_iff {g : Graph ND LD} {k : NId} {r : Nat} :
    r ∈ g.nodeLinksAt k ↔ ∃ n, alGet g.nodes k = some n ∧ r ∈ n.links.getD [] := by
  unfold Graph.nodeLinksAt
  cases hn : alGet g.nodes k with
  | none => simp
  | some n =>
    simp only [Option.bind_some, Option.some.injEq]
    constructor
    · intro h
      exact ⟨n, rfl, by cases hl : n.links <;> simp [hl] at h ⊢ <;> exact h⟩
    · rintro ⟨n', hn', h⟩
      subst hn'
      cases hl : n.links <;> simp [hl] at h ⊢ <;> exact h

/-- Under the store invariants, an incident reference resolves to a link that
names the node, and whose id is live in the link store. -/
theorem wf_nodeLinksAt_resolves {g : Graph ND LD} (hwf : g.wfB = true) {k : NId}
    {r : Nat} (h : r ∈ g.nodeLinksAt k) :
    ∃ l, g.linkArena.get? r = some l ∧ (l.fromId = k ∨ l.toId = k) ∧
      (alGet g.links l.id).isSome = true := by
  obtain ⟨n, hn, hr⟩ := mem_nodeLinksAt_iff.mp h
  obtain ⟨l, h1, h2, _, _, h5⟩ := (wf_parts hwf).2.2.2.2.1 (k, n) (alGet_mem hn) r hr
  exact ⟨l, h1, h2, h5⟩

/-- Under the store invariants, an incident reference is registered at every
node that is one of its link's endpoints (the inverse index). -/
theorem wf_inverse_mem {g : Graph ND LD} (hwf : g.wfB = true) {k : NId} {r : Nat}
    (hk : r ∈ g.nodeLinksAt k) {l : LinkObj LD}
    (harena : g.linkArena.get? r = some l) {q : NId} {qn : NodeObj ND}
    (hq : alGet g.nodes q = some qn) (hend : q = l.fromId ∨ q = l.toId) :
    r ∈ g.nodeLinksAt q := by
  obtain ⟨n, hn, hr⟩ := mem_nodeLinksAt_iff.mp hk
  have := (wf_parts hwf).2.2.2.2.2.1 (k, n) (alGet_mem hn) r hr l harena
    (q, qn) (alGet_mem hq) hend
  exact mem_nodeLinksAt_iff.mpr ⟨qn, hq, this⟩

/-- Full bookkeeping of one successful link removal performed inside the
`removeNode` cascade (suspension depth 1, listener registered). -/
theorem removeLinkInstance_step {st : Graph ND LD} {r : Nat} {l : LinkObj LD}
    (harena : st.linkArena.get? r = some l)
    (hid : (alGet st.links l.id).isSome = true)
    (hsus : st.suspendEvents = 1) (hlst : st.listening = true)
    (hnd : ∀ k, (st.nodeLinksAt k).Nodup) :
    (st.removeLinkInstance (some r)).2.linkArena = st.linkArena ∧
    (st.removeLinkInstance (some r)).2.links = alDel st.links l.id ∧
    (st.removeLinkInstance (some r)).2.listening = true ∧
    (st.removeLinkInstance (some r)).2.suspendEvents = 1 ∧
    (st.removeLinkInstance (some r)).2.emitted = st.emitted ∧
    (st.removeLinkInstance (some r)).2.changes = st.changes ++ [Change.linkCh r .remove] ∧
    (st.removeLinkInstance (some r)).2.nodes.map Prod.fst = st.nodes.map Prod.fst ∧
    (∀ k, (st.removeLinkInstance (some r)).2.nodeLinksAt k ⊆ st.nodeLinksAt k) ∧
    (∀ k, k ≠ l.fromId → k ≠ l.toId →
      (st.removeLinkInstance (some r)).2.nodeLinksAt k = st.nodeLinksAt k) ∧
    (∀ k, r ∉ (st.removeLinkInstance (some r)).2.nodeLinksAt k ∨
      (k ≠ l.fromId ∧ k ≠ l.toId)) ∧
    (∀ k, ((st.removeLinkInstance (some r)).2.nodeLinksAt k).Nodup) := by
  rw [removeLinkInstance_success harena hid]
  set g2 : Graph ND LD := { st.enterModification with links := alDel st.links l.id }
    with hg2
  set g3 := g2.nodeLinksDelete l.fromId r with hg3
  set g4 := g3.nodeLinksDelete l.toId r with hg4
  set g5 := g4.recordLinkChange r .remove with hg5
  have hg2nodes : g2.nodes = st.nodes := rfl
  have hg2at : ∀ k, g2.nodeLinksAt k = st.nodeLinksAt k := fun k =>
    nodeLinksAt_congr rfl k
  have hsus5 : g5.suspendEvents = 2 := by
    rw [hg5, recordLinkChange_suspendEvents, hg4, nodeLinksDelete_suspendEvents,
      hg3, nodeLinksDelete_suspendEvents]
    show st.suspendEvents + 1 = 2
    omega
  have hexit : g5.exitModification = { g5 with suspendEvents := 1 } :=
    exitModification_of_suspend2 hsus5
  rw [hexit]
  have hat4 : ∀ k, g4.nodeLinksAt k =
      if k = l.toId then ((g3.nodeLinksAt k).erase r)
      else g3.nodeLinksAt k := by
    intro k
    by_cases hk : k = l.toId
    · rw [if_pos hk, hk, hg4, nodeLinksAt_nodeLinksDelete_self]
    · rw [if_neg hk, hg4, nodeLinksAt_nodeLinksDelete_ne _ _ _ hk]
  have hat3 : ∀ k, g3.nodeLinksAt k =
      if k = l.fromId then ((st.nodeLinksAt k).erase r)
      else st.nodeLinksAt k := by
    intro k
    by_cases hk : k = l.fromId
    · rw [if_pos hk, hk, hg3, nodeLinksAt_nodeLinksDelete_self, hg2at]
    · rw [if_neg hk, hg3, nodeLinksAt_nodeLinksDelete_ne _ _ _ hk, hg2at]
  have hat5 : ∀ k, ({ g5 with suspendEvents := 1 } : Graph ND LD).nodeLinksAt k =
      g4.nodeLinksAt k := by
    intro k
    refine nodeLinksAt_congr ?_ k
    show g5.nodes = g4.nodes
    rw [hg5, recordLinkChange_nodes]
  have hnd3 : ∀ k, (g3.nodeLinksAt k).Nodup := by
    intro k
    rw [hat3]
    split
    · exact (hnd k).erase r
    · exact hnd k
  refine ⟨?_, ?_, ?_, ?_, ?_, ?_, ?_, ?_, ?_, ?_, ?_⟩
  · show g5.linkArena = st.linkArena
    rw [hg5, recordLinkChange_linkArena, hg4, nodeLinksDelete_linkArena, hg3,
      nodeLinksDelete_linkArena]
    rfl
  · show g5.links = alDel st.links l.id
    rw [hg5, recordLinkChange_links, hg4, nodeLinksDelete_links, hg3,
      nodeLinksDelete_links]
  · show g5.listening = true
    rw [hg5, recordLinkChange_listening, hg4, nodeLinksDelete_listening, hg3,
      nodeLinksDelete_listening]
    exact hlst
  · rfl
  · show g5.emitted = st.emitted
    rw [hg5, recordLinkChange_emitted, hg4, nodeLinksDelete_emitted, hg3,
      nodeLinksDelete_emitted]
    rfl
  · show g5.changes = st.changes ++ [Change.linkCh r .remove]
    have hlst4 : g4.listening = true := by
      rw [hg4, nodeLinksDelete_listening, hg3, nodeLinksDelete_listening]
      exact hlst
    rw [hg5, recordLinkChange_changes_listening r .remove hlst4, hg4,
      nodeLinksDelete_changes, hg3, nodeLinksDelete_changes]
    rfl
  · show g5.nodes.map Prod.fst = st.nodes.map Prod.fst
    rw [hg5, recordLinkChange_nodes, hg4, nodeLinksDelete_map_fst, hg3,
      nodeLinksDelete_map_fst]
    rfl
  · intro k
    rw [hat5, hat4, hat3]
    split
    · split
      · exact (List.erase_subset _ _).trans (List.erase_subset _ _)
      · exact List.erase_subset _ _
    · split
      · exact List.erase_subset _ _
      · exact fun x hx => hx
  · intro k hkf hkt
    rw [hat5, hat4, if_neg hkt, hat3, if_neg hkf]
  · intro k
    by_cases hkf : k = l.fromId
    · left
      rw [hat5, hat4, hat3, if_pos hkf]
      split
      · intro hmem
        exact not_mem_erase_self ((hnd k).erase r) r hmem
      · exact not_mem_erase_self (hnd k) r
    · by_cases hkt : k = l.toId
      · left
        rw [hat5, hat4, if_pos hkt, hat3, if_neg hkf]
        exact not_mem_erase_self (hnd k) r
      · right
        exact ⟨hkf, hkt⟩
  · intro k
    rw [hat5, hat4]
    split
    · exact (hnd3 k).erase r
    · exact hnd3 k

theorem removalFold_nil (st : Graph ND LD) : removalFold st [] = st := rfl

theorem removalFold_cons (st : Graph ND LD) (r : Nat) (rs : List Nat) :
    removalFold st (r :: rs) = removalFold (st.removeLinkInstance (some r)).2 rs := rfl

/-- Bookkeeping of the whole link-removal cascade: run from any state whose
store agrees with a well-formed `g0` on the arena and node keys, whose
remaining references still resolve with live distinct ids, it removes each
reference in order (recording one `remove` link change each), only ever
shrinks incident sets, and leaves no processed reference in any incident
set. -/
theorem removeNode_fold {g0 : Graph ND LD} (hwf : g0.wfB = true) :
    ∀ (rest : List Nat) (st : Graph ND LD),
    st.linkArena = g0.linkArena →
    st.listening = true →
    st.suspendEvents = 1 →
    st.emitted = g0.emitted →
    st.nodes.map Prod.fst = g0.nodes.map Prod.fst →
    (∀ r ∈ rest, ∃ l, g0.linkArena.get? r = some l ∧ (alGet st.links l.id).isSome = true) →
    ((rest.map g0.linkIdAt).Nodup) →
    (∀ k, st.nodeLinksAt k ⊆ g0.nodeLinksAt k) →
    (∀ k, (st.nodeLinksAt k).Nodup) →
    (removalFold st rest).linkArena = g0.linkArena ∧
    (removalFold st rest).listening = true ∧
    (removalFold st rest).suspendEvents = 1 ∧
    (removalFold st rest).emitted = g0.emitted ∧
    (removalFold st rest).changes =
      st.changes ++ rest.map (fun r => Change.linkCh r .remove) ∧
    (removalFold st rest).nodes.map Prod.fst = g0.nodes.map Prod.fst ∧
    (∀ k, (removalFold st rest).nodeLinksAt k ⊆ st.nodeLinksAt k) ∧
    (∀ k, ((removalFold st rest).nodeLinksAt k).Nodup) ∧
    (∀ r ∈ rest, ∀ k, r ∉ (removalFold st rest).nodeLinksAt k) := by
  intro rest
  induction rest with
  | nil =>
    intro st h1 h2 h3 h4 h5 h6 h7 h8 h9
    rw [removalFold_nil]
    exact ⟨h1, h2, h3, h4, by simp, h5, fun k x hx => hx, h9, by simp⟩
  | cons r rest ih =>
    intro st h1 h2 h3 h4 h5 h6 h7 h8 h9
    obtain ⟨l, harena0, hid⟩ := h6 r (by simp)
    have harena : st.linkArena.get? r = some l := by rw [h1]; exact harena0
    obtain ⟨s1, s2, s3, s4, s5, s6, s7, s8, s9, s10, s11⟩ :=
      removeLinkInstance_step harena hid h3 h2 h9
    have hlid : g0.linkIdAt r = some l.id := by
      unfold Graph.linkIdAt
      rw [harena0]
      rfl
    rw [List.map_cons, List.nodup_cons] at h7
    have hrnotin : ∀ k, r ∉ (st.removeLinkInstance (some r)).2.nodeLinksAt k := by
      intro k
      rcases s10 k with h | ⟨hkf, hkt⟩
      · exact h
      · rw [s9 k hkf hkt]
        intro hmem
        obtain ⟨l', harena', hend, _⟩ := wf_nodeLinksAt_resolves hwf (h8 k hmem)
        rw [harena0] at harena'
        cases harena'
        rcases hend with he | he
        · exact hkf he.symm
        · exact hkt he.symm
    have hguard' : ∀ r' ∈ rest, ∃ l', g0.linkArena.get? r' = some l' ∧
        (alGet (st.removeLinkInstance (some r)).2.links l'.id).isSome = true := by
      intro r' hr'
      obtain ⟨l', harena0', hid'⟩ := h6 r' (by simp [hr'])
      refine ⟨l', harena0', ?_⟩
      have hlid' : g0.linkIdAt r' = some l'.id := by
        unfold Graph.linkIdAt
        rw [harena0']
        rfl
      have hne : l'.id ≠ l.id := by
        intro he
        apply h7.1
        rw [hlid]
        have : g0.linkIdAt r' ∈ rest.map g0.linkIdAt := List.mem_map_of_mem _ hr'
        rw [hlid', he] at this
        exact this
      rw [s2, alGet_alDel_ne _ hne]
      exact hid'
    obtain ⟨i1, i2, i3, i4, i5, i6, i7, i8, i9⟩ :=
      ih (st.removeLinkInstance (some r)).2 (s1.trans h1) s3 s4 (s5.trans h4)
        (s7.trans h5) hguard' h7.2 (fun k => (s8 k).trans (h8 k)) s11
    rw [removalFold_cons]
    refine ⟨i1, i2, i3, i4, ?_, i6, ?_, i8, ?_⟩
    · rw [i5, s6, List.map_cons, List.append_assoc]
      rfl
    · exact fun k => (i7 k).trans (s8 k)
    · intro r' hr' k
      rcases List.mem_cons.mp hr' with he | hmem
      · subst he
        intro hmem2
        exact hrnotin k (i7 k hmem2)
      · exact i9 r' hmem k

theorem recordNodeChange_nodes (g : Graph ND LD) (n : NodeObj ND) (t : ChangeType) :
    (g.recordNodeChange n t).nodes = g.nodes := by
  unfold Graph.recordNodeChange
  split <;> rfl

theorem recordNodeChange_linkArena (g : Graph ND LD) (n : NodeObj ND) (t : ChangeType) :
    (g.recordNodeChange n t).linkArena = g.linkArena := by
  unfold Graph.recordNodeChange
  split <;> rfl

theorem recordNodeChange_suspendEvents (g : Graph ND LD) (n : NodeObj ND) (t : ChangeType) :
    (g.recordNodeChange n t).suspendEvents = g.suspendEvents := by
  unfold Graph.recordNodeChange
  split <;> rfl

theorem recordNodeChange_emitted (g : Graph ND LD) (n : NodeObj ND) (t : ChangeType) :
    (g.recordNodeChange n t).emitted = g.emitted := by
  unfold Graph.recordNodeChange
  split <;> rfl

theorem recordNodeChange_changes_listening {g : Graph ND LD} (n : NodeObj ND)
    (t : ChangeType) (hl : g.listening = true) :
    (g.recordNodeChange n t).changes = g.changes ++ [Change.nodeCh n.id t] := by
  unfold Graph.recordNodeChange
  rw [if_pos hl]

theorem exitModification_flush {g : Graph ND LD} (h : g.suspendEvents = 1)
    (hne : g.changes ≠ []) :
    g.exitModification =
      { g with suspendEvents := 0, emitted := g.emitted ++ [g.changes], changes := [] } := by
  unfold Graph.exitModification
  dsimp only
  rw [h]
  rw [if_pos ⟨rfl, hne⟩]

theorem nodeLinksAt_eq_of_alGet {g : Graph ND LD} {k : NId} {n : NodeObj ND}
    (h : alGet g.nodes k = some n) : g.nodeLinksAt k = n.links.getD [] := by
  unfold Graph.nodeLinksAt
  rw [h]
  rfl

theorem nodeLinksAt_eq_nil_of_none {g : Graph ND LD} {k : NId}
    (h : alGet g.nodes k = none) : g.nodeLinksAt k = [] := by
  unfold Graph.nodeLinksAt
  rw [h]
  rfl

/-- The full behaviour of `removeNode` on a present node of a well-formed,
quiescent, listening store: result `true`, the node is gone, one batch holding
one `remove` link change per incident reference in enumeration order followed
by the node's `remove` change, and no surviving incident reference resolves to
a link naming the removed id. -/
theorem removeNode_present_spec {g : Graph ND LD} {i : NId} {node : NodeObj ND}
    (hwf : g.wfB = true) (hq : g.suspendEvents = 0) (hc : g.changes = [])
    (hl : g.listening = true) (hget : g.getNode i = some node) :
    (g.removeNode i).1 = true ∧
    (g.removeNode i).2.getNode i = none ∧
    (g.removeNode i).2.emitted = g.emitted ++
      [(node.links.getD []).map (fun r => Change.linkCh r .remove) ++
        [Change.nodeCh i .remove]] ∧
    ∀ k r l, r ∈ (g.removeNode i).2.nodeLinksAt k →
      (g.removeNode i).2.linkArena.get? r = some l →
      l.fromId ≠ i ∧ l.toId ≠ i := by
  obtain ⟨h1, h2, h3, h4, h5, h6, h7, h8⟩ := wf_parts hwf
  have hgetal : alGet g.nodes i = some node := hget
  have hnodeid : node.id = i := h3 (i, node) (alGet_mem hgetal)
  have hrm : g.removeNode i =
      (true, ((g.enterModification).removeNodeBody i node).exitModification) := by
    unfold Graph.removeNode
    rw [hget]
  rw [hrm]
  refine ⟨rfl, ?_⟩
  cases hls : node.links with
  | none =>
    have hbody : (g.enterModification).removeNodeBody i node =
        ({ g.enterModification with
            nodes := alDel g.nodes i } : Graph ND LD).recordNodeChange node .remove := by
      unfold Graph.removeNodeBody
      rw [hls]
      rfl
    rw [hbody]
    set B1 : Graph ND LD := { g.enterModification with nodes := alDel g.nodes i } with hB1
    set recg := B1.recordNodeChange node .remove with hrecg
    have hrecch : recg.changes = [Change.nodeCh i .remove] := by
      rw [hrecg, recordNodeChange_changes_listening node .remove (by exact hl), hnodeid]
      have : B1.changes = [] := hc
      rw [this]
      rfl
    have hrecsus : recg.suspendEvents = 1 := by
      rw [hrecg, recordNodeChange_suspendEvents]
      show g.suspendEvents + 1 = 1
      omega
    have hflush := exitModification_flush hrecsus (by rw [hrecch]; simp)
    rw [hflush]
    have hnodes : recg.nodes = alDel g.nodes i := by
      rw [hrecg, recordNodeChange_nodes]
    have harena : recg.linkArena = g.linkArena := by
      rw [hrecg, recordNodeChange_linkArena]
      rfl
    refine ⟨?_, ?_, ?_⟩
    · show alGet recg.nodes i = none
      rw [hnodes]
      exact alGet_alDel_self g.nodes i h1
    · show recg.emitted ++ [recg.changes] = _
      rw [hrecch, hrecg, recordNodeChange_emitted]
      have : B1.emitted = g.emitted := rfl
      rw [this]
      rfl
    · intro k r l hmem harr
      have hmem' : r ∈ g.nodeLinksAt k := by
        by_cases hk : k = i
        · subst hk
          rw [show ({ recg with suspendEvents := 0, emitted := recg.emitted ++ [recg.changes], changes := [] } : Graph ND LD).nodeLinksAt k = ([] : List Nat) from nodeLinksAt_eq_nil_of_none (by rw [show ({ recg with suspendEvents := 0, emitted := recg.emitted ++ [recg.changes], changes := [] } : Graph ND LD).nodes = alDel g.nodes k from hnodes]; exact alGet_alDel_self g.nodes k h1)] at hmem
          exact absurd hmem (by simp)
        · have heq : ({ recg with suspendEvents := 0, emitted := recg.emitted ++ [recg.changes], changes := [] } : Graph ND LD).nodeLinksAt k = g.nodeLinksAt k := by
            unfold Graph.nodeLinksAt
            rw [show ({ recg with suspendEvents := 0, emitted := recg.emitted ++ [recg.changes], changes := [] } : Graph ND LD).nodes = alDel g.nodes i from hnodes]
            rw [alGet_alDel_ne g.nodes hk]
          rw [heq] at hmem
          exact hmem
      have harr' : g.linkArena.get? r = some l := by
        rw [show ({ recg with suspendEvents := 0, emitted := recg.emitted ++ [recg.changes], changes := [] } : Graph ND LD).linkArena = g.linkArena from harena] at harr
        exact harr
      constructor
      · intro he
        have := wf_inverse_mem hwf hmem' harr' hgetal (Or.inl he.symm)
        rw [nodeLinksAt_eq_of_alGet hgetal, hls] at this
        exact absurd this (by simp)
      · intro he
        have := wf_inverse_mem hwf hmem' harr' hgetal (Or.inr he.symm)
        rw [nodeLinksAt_eq_of_alGet hgetal, hls] at this
        exact absurd this (by simp)
  | some ls =>
    have hEat : ∀ k, (g.enterModification).nodeLinksAt k = g.nodeLinksAt k := fun k =>
      nodeLinksAt_congr rfl k
    have hguards : ∀ r ∈ ls, ∃ l, g.linkArena.get? r = some l ∧
        (alGet (g.enterModification).links l.id).isSome = true := by
      intro r hr
      obtain ⟨l, ha, _, _, _, hid⟩ := h5 (i, node) (alGet_mem hgetal) r (by rw [hls]; exact hr)
      exact ⟨l, ha, hid⟩
    have hids : ((ls.map g.linkIdAt)).Nodup := by
      have := h8 (i, node) (alGet_mem hgetal)
      rw [hls] at this
      exact this
    obtain ⟨f1, f2, f3, f4, f5, f6, f7, f8, f9⟩ :=
      removeNode_fold hwf ls g.enterModification rfl hl
        (by show g.suspendEvents + 1 = 1; omega) rfl rfl hguards hids
        (fun k => by rw [hEat k]; exact fun x hx => hx)
        (fun k => by rw [hEat k]; exact wf_nodeLinksAt_nodup hwf k)
    set stF := removalFold (g.enterModification) ls with hstF
    have hiSome : (alGet stF.nodes i).isSome = true := by
      apply alGet_isSome_of_mem_keys
      rw [f6]
      exact List.mem_map_of_mem Prod.fst (alGet_mem hgetal)
    cases hn' : alGet stF.nodes i with
    | none => rw [hn'] at hiSome; simp at hiSome
    | some n' =>
      have hbody : (g.enterModification).removeNodeBody i node =
          ({ stF with
              nodes := alDel (alSet stF.nodes i { n' with links := none }) i }
            : Graph ND LD).recordNodeChange node .remove := by
        unfold Graph.removeNodeBody
        rw [hls]
        dsimp only
        rw [show List.foldl (fun (g : Graph ND LD) r => (g.removeLinkInstance (some r)).2)
          (g.enterModification) ls = stF from rfl]
        rw [hn']
      rw [hbody]
      set D1 : Graph ND LD :=
        { stF with nodes := alDel (alSet stF.nodes i { n' with links := none }) i }
        with hD1
      set recg := D1.recordNodeChange node .remove with hrecgdef
      have hD1listen : D1.listening = true := f2
      have hgEc : (g.enterModification).changes = [] := hc
      have hrecch : recg.changes =
          (ls.map fun r => Change.linkCh r .remove) ++ [Change.nodeCh i .remove] := by
        rw [hrecgdef, recordNodeChange_changes_listening node .remove hD1listen, hnodeid]
        have hD1c : D1.changes = stF.changes := rfl
        rw [hD1c, f5, hgEc]
        simp
      have hrecsus : recg.suspendEvents = 1 := by
        rw [hrecgdef, recordNodeChange_suspendEvents]
        exact f3
      have hflush := exitModification_flush hrecsus (by rw [hrecch]; simp)
      rw [hflush]
      have hnodes : recg.nodes = alDel (alSet stF.nodes i { n' with links := none }) i := by
        rw [hrecgdef, recordNodeChange_nodes]
      have harena : recg.linkArena = g.linkArena := by
        rw [hrecgdef, recordNodeChange_linkArena]
        exact f1
      have hsetkeys : ((alSet stF.nodes i { n' with links := none }).map Prod.fst).Nodup := by
        rw [alSet_map_fst hn', f6]
        exact h1
      refine ⟨?_, ?_, ?_⟩
      · show alGet recg.nodes i = none
        rw [hnodes]
        exact alGet_alDel_self _ i hsetkeys
      · show recg.emitted ++ [recg.changes] = _
        have hrece : recg.emitted = g.emitted := by
          rw [hrecgdef, recordNodeChange_emitted]
          exact f4
        rw [hrece, hrecch]
        rfl
      · intro k r l hmem harr
        have harr2 : g.linkArena.get? r = some l := by
          rw [show ({ recg with suspendEvents := 0, emitted := recg.emitted ++ [recg.changes], changes := [] } : Graph ND LD).linkArena = g.linkArena from harena] at harr
          exact harr
        by_cases hk : k = i
        · subst hk
          rw [show ({ recg with suspendEvents := 0, emitted := recg.emitted ++ [recg.changes], changes := [] } : Graph ND LD).nodeLinksAt k = ([] : List Nat) from
            nodeLinksAt_eq_nil_of_none (by
              rw [show ({ recg with suspendEvents := 0, emitted := recg.emitted ++ [recg.changes], changes := [] } : Graph ND LD).nodes =
                  alDel (alSet stF.nodes k { n' with links := none }) k from hnodes]
              exact alGet_alDel_self _ k hsetkeys)] at hmem
          exact absurd hmem (by simp)
        · have heq : ({ recg with suspendEvents := 0, emitted := recg.emitted ++ [recg.changes], changes := [] } : Graph ND LD).nodeLinksAt k = stF.nodeLinksAt k := by
            unfold Graph.nodeLinksAt
            rw [show ({ recg with suspendEvents := 0, emitted := recg.emitted ++ [recg.changes], changes := [] } : Graph ND LD).nodes =
                alDel (alSet stF.nodes i { n' with links := none }) i from hnodes]
            rw [alGet_alDel_ne _ hk, alGet_alSet_ne _ _ hk]
          rw [heq] at hmem
          have hmemg : r ∈ g.nodeLinksAt k := by
            have := f7 k hmem
            rw [hEat k] at this
            exact this
          constructor
          · intro he
            have hmi := wf_inverse_mem hwf hmemg harr2 hgetal (Or.inl he.symm)
            rw [nodeLinksAt_eq_of_alGet hgetal, hls] at hmi
            exact f9 r hmi k hmem
          · intro he
            have hmi := wf_inverse_mem hwf hmemg harr2 hgetal (Or.inr he.symm)
            rw [nodeLinksAt_eq_of_alGet hgetal, hls] at hmi
            exact f9 r hmi k hmem

/-- C4: `removeNode(id)` returns `false` and changes nothing when `id` is
absent.  On a store satisfying the documented invariants (`wfB`), quiescent
and listening, removing a present node returns `true`, deletes the node,
emits one batch holding a `remove` link change per incident reference in
enumeration order followed by the node's `remove` change, and afterwards no
incident reference of any surviving node resolves to a link naming the
removed id. -/
theorem c4_removeNode_cascade (g : Graph ND LD) (i : NId) (node : NodeObj ND)
    (hwf : g.wfB = true) (hq : g.suspendEvents = 0) (hc : g.changes = [])
    (hl : g.listening = true) :
    (g.getNode i = none → g.removeNode i = (false, g)) ∧
    (g.getNode i = some node →
      (g.removeNode i).1 = true ∧
      (g.removeNode i).2.getNode i = none ∧
      (g.removeNode i).2.emitted = g.emitted ++
        [(node.links.getD []).map (fun r => Change.linkCh r .remove) ++
          [Change.nodeCh i .remove]] ∧
      ∀ k r l, r ∈ (g.removeNode i).2.nodeLinksAt k →
        (g.removeNode i).2.linkArena.get? r = some l →
        l.fromId ≠ i ∧ l.toId ≠ i) := by
  constructor
  · intro h
    unfold Graph.removeNode
    rw [h]
  · intro h
    exact removeNode_present_spec hwf hq hc hl h

/-- C4 counterexample: on the API-reachable multigraph `gM2` (two
`addLink(0, 1)` calls; the falsy endpoint id 0 makes both link objects share
one store id), `removeNode(0)` returns `true` but removes only one of the two
incident links: node 1 keeps incident reference 1, whose link still names the
removed id 0, and node 1's neighbor enumeration then throws `Invalid link`;
the emitted batch holds a single link removal instead of two. -/
theorem c4_counterexample_orphaned_reference :
    (gM2.removeNode (.num 0)).1 = true ∧
    (gM2.removeNode (.num 0)).2.nodeLinksAt (.num 1) = [1] ∧
    ((gM2.removeNode (.num 0)).2.linkArena.get? 1).map (fun l => l.fromId) =
      some (.num 0) ∧
    (gM2.removeNode (.num 0)).2.linkedNodes (.num 1) false = .error "Invalid link" ∧
    (gM2.listen.removeNode (.num 0)).2.emitted =
      [[Change.linkCh 0 .remove, Change.nodeCh (.num 0) .remove]] := by
  refine ⟨by decide, by decide, by decide, by rfl, by decide⟩

theorem c4_witness :
    ((g123.listen).removeNode (.num 2)).1 = true ∧
    ((g123.listen).removeNode (.num 2)).2.getNode (.num 2) = none ∧
    ((g123.listen).removeNode (.num 2)).2.emitted = (g123.listen).emitted ++
      [(wNodeC4.links.getD []).map (fun r => Change.linkCh r .remove) ++
        [Change.nodeCh (.num 2) .remove]] ∧
    ∀ k r l, r ∈ ((g123.listen).removeNode (.num 2)).2.nodeLinksAt k →
      ((g123.listen).removeNode (.num 2)).2.linkArena.get? r = some l →
      l.fromId ≠ (.num 2) ∧ l.toId ≠ (.num 2) :=
  (c4_removeNode_cascade (g123.listen) (.num 2) wNodeC4 (by decide) (by decide)
    (by decide) (by decide)).2 (by decide)
